import Mathlib

/-!
Shallow embedding of the portfolio-db ledger core: holdings, cash positions,
the transaction recorder, planned orders, broker-snapshot reconciliation, and
the TTL-bound price/FX caches, translated from `src/portfoliodb` (the service
modules together with the sqlite schema in `db.py`).

Modelling conventions:
* SQLite `REAL` columns (shares, prices, cash, fees) are rationals (`ℚ`).
* Timestamps (`datetime('now')`, `fetched_at`) are rationals measured in
  minutes, passed in as an explicit `now` parameter.
* A table is a list of rows in insertion order; `SELECT ... fetchone()` is a
  first-match scan, `UPDATE ... WHERE` rewrites every matching row, `DELETE`
  filters them out, `INSERT` appends.  The `UNIQUE` constraints of the schema
  (one holding per (account_id, ticker), one cash position per
  (account_id, currency), one cache row per key) mean at most one row ever
  matches in reachable states.
* `with get_connection() as conn:` commits every write of the block on success
  and rolls all of them back (re-raising the exception) on failure.  Fallible
  operations therefore return `Except Err ...`; an `Except.error` means the
  Python call raised and *no* write of that unit became durable, so the caller
  keeps the pre-state.
-/

namespace PortfolioDB

/-- Python's `str.upper()` as the services use it (ASCII tickers, currencies
and action names): uppercase every character.  Defined through `List.map` so
that concrete instances evaluate inside the kernel. -/
def upperStr (s : String) : String := ⟨s.data.map Char.toUpper⟩

/-- The closed action set `TRANSACTION_ACTIONS = {"BUY", "SELL"}`
(`utils/constants.py`). -/
inductive Action where
  | BUY
  | SELL
deriving DecidableEq

/-- The closed status set `ORDER_STATUSES = {"PENDING", "EXECUTED", "CANCELLED"}`. -/
inductive OrderStatus where
  | PENDING
  | EXECUTED
  | CANCELLED
deriving DecidableEq

/-- The `ValueError`s raised by the services, classified by the spec's §7 error
taxonomy: malformed input, sell exceeding the held quantity (carrying the held
amount the message reports), missing row, operation on a terminal planned
order (carrying the offending status), and a failed external price/FX fetch. -/
inductive Err where
  | invalidArgument
  | insufficientShares (held : ℚ)
  | notFound
  | invalidState (st : OrderStatus)
  | unavailable
deriving DecidableEq

/-- Row of the `holdings` table; `UNIQUE(account_id, ticker)`. -/
structure HoldingRow where
  account_id : Nat
  ticker : String
  shares : ℚ
  avg_cost : ℚ
deriving DecidableEq

/-- Row of the `cash_positions` table; `UNIQUE(account_id, currency)`. -/
structure CashRow where
  account_id : Nat
  currency : String
  balance : ℚ
deriving DecidableEq

/-- Row of the append-only `transactions` table. -/
structure TxnRow where
  id : Nat
  account_id : Nat
  ticker : String
  action : Action
  shares : ℚ
  price : ℚ
  fee : ℚ
  tax : ℚ
  currency : String
  notes : Option String
  executed_at : ℚ
deriving DecidableEq

/-- Row of the `planned_orders` table.  `action` is stored as a member of the
closed set because `create_order` validates it before insertion. -/
structure OrderRow where
  id : Nat
  account_id : Nat
  ticker : String
  action : Action
  shares : ℚ
  target_price : Option ℚ
  reason : Option String
  priority : String
  status : OrderStatus
  executed_at : Option ℚ
  linked_transaction_id : Option Nat
deriving DecidableEq

/-- Row of the `price_cache` table; `UNIQUE(ticker)`. -/
structure PriceRow where
  ticker : String
  price : ℚ
  currency : String
  fetched_at : ℚ
deriving DecidableEq

/-- Row of the `exchange_rates` table; `UNIQUE(from_currency, to_currency)`. -/
structure RateRow where
  from_currency : String
  to_currency : String
  rate : ℚ
  fetched_at : ℚ
deriving DecidableEq

/-- The shared store: the tables the claims touch.  `accounts` keeps the two
fields the services read (row id and settlement currency). -/
structure DB where
  accounts : List (Nat × String)
  holdings : List HoldingRow
  cash : List CashRow
  transactions : List TxnRow
  orders : List OrderRow
deriving DecidableEq

/-- `SELECT * FROM accounts WHERE id = ?` projected to the settlement
currency, as `account_service.get_account` reads it. -/
def aFind : List (Nat × String) → Nat → Option String
  | [], _ => none
  | (i, cur) :: rest, a => if i = a then some cur else aFind rest a

/-- `SELECT * FROM holdings WHERE account_id = ? AND ticker = ?` (fetchone). -/
def hFind : List HoldingRow → Nat → String → Option HoldingRow
  | [], _, _ => none
  | h :: rest, a, t => if h.account_id = a ∧ h.ticker = t then some h else hFind rest a t

/-- `UPDATE holdings SET shares = ?, avg_cost = ? WHERE account_id = ? AND ticker = ?`. -/
def hSetBoth : List HoldingRow → Nat → String → ℚ → ℚ → List HoldingRow
  | [], _, _, _, _ => []
  | h :: rest, a, t, s, c =>
      (if h.account_id = a ∧ h.ticker = t then { h with shares := s, avg_cost := c } else h)
        :: hSetBoth rest a t s c

/-- `UPDATE holdings SET shares = ? WHERE account_id = ? AND ticker = ?`
(the sell path leaves `avg_cost` untouched). -/
def hSetShares : List HoldingRow → Nat → String → ℚ → List HoldingRow
  | [], _, _, _ => []
  | h :: rest, a, t, s =>
      (if h.account_id = a ∧ h.ticker = t then { h with shares := s } else h)
        :: hSetShares rest a t s

/-- `DELETE FROM holdings WHERE account_id = ? AND ticker = ?`. -/
def hDelete : List HoldingRow → Nat → String → List HoldingRow
  | [], _, _ => []
  | h :: rest, a, t =>
      if h.account_id = a ∧ h.ticker = t then hDelete rest a t else h :: hDelete rest a t

/-- `SELECT * FROM cash_positions WHERE account_id = ? AND currency = ?`. -/
def cFind : List CashRow → Nat → String → Option CashRow
  | [], _, _ => none
  | c :: rest, a, cur => if c.account_id = a ∧ c.currency = cur then some c else cFind rest a cur

/-- `UPDATE cash_positions SET balance = ? WHERE account_id = ? AND currency = ?`. -/
def cSetBalance : List CashRow → Nat → String → ℚ → List CashRow
  | [], _, _, _ => []
  | c :: rest, a, cur, b =>
      (if c.account_id = a ∧ c.currency = cur then { c with balance := b } else c)
        :: cSetBalance rest a cur b

/-- `SELECT * FROM planned_orders WHERE id = ?`. -/
def oFind : List OrderRow → Nat → Option OrderRow
  | [], _ => none
  | o :: rest, i => if o.id = i then some o else oFind rest i

/-- `UPDATE planned_orders SET status = 'EXECUTED', executed_at = datetime('now'),
linked_transaction_id = ? WHERE id = ?` — note the `WHERE` clause tests only the
row id, not the current status. -/
def oSetExecuted : List OrderRow → Nat → Nat → ℚ → List OrderRow
  | [], _, _, _ => []
  | o :: rest, i, txid, now =>
      (if o.id = i then
        { o with status := .EXECUTED, executed_at := some now,
                 linked_transaction_id := some txid }
       else o) :: oSetExecuted rest i txid now

/-- `UPDATE planned_orders SET status = 'CANCELLED' WHERE id = ?`. -/
def oSetCancelled : List OrderRow → Nat → List OrderRow
  | [], _ => []
  | o :: rest, i => (if o.id = i then { o with status := .CANCELLED } else o) :: oSetCancelled rest i

/-- The `action.upper()` normalisation followed by the membership test against
`TRANSACTION_ACTIONS` performed by `record_transaction` and `create_order`. -/
def parseAction (s : String) : Option Action :=
  if upperStr s = "BUY" then some .BUY
  else if upperStr s = "SELL" then some .SELL
  else none

/-- The stored text of an action, as `planned_orders.action` holds it. -/
def actionStr : Action → String
  | .BUY => "BUY"
  | .SELL => "SELL"

/-- `holding_service.update_holding_from_trade` (lines 51–105).  BUY merges into
the weighted-average lot or inserts a fresh row at cost `price`; SELL raises
(`InsufficientShares`, message carrying the held amount, 0 when no row exists)
unless enough shares are held, decrements shares leaving `avg_cost` alone, and
deletes the row when the remainder is exactly 0.  The BUY division is total in
`ℚ` (q / 0 = 0); Python would raise there, but that branch is only reachable
when `old_shares + shares = 0`, which the validated caller (`shares > 0`,
holdings non-negative) excludes. -/
def update_holding_from_trade (db : DB) (account_id : Nat) (ticker : String)
    (action : Action) (shares price : ℚ) : Except Err DB :=
  let t := upperStr ticker
  match action, hFind db.holdings account_id t with
  | .BUY, some existing =>
      let new_shares := existing.shares + shares
      let new_avg_cost := (existing.shares * existing.avg_cost + shares * price) / new_shares
      .ok { db with holdings := hSetBoth db.holdings account_id t new_shares new_avg_cost }
  | .BUY, none =>
      .ok { db with holdings := db.holdings ++ [⟨account_id, t, shares, price⟩] }
  | .SELL, some existing =>
      if existing.shares < shares then .error (.insufficientShares existing.shares)
      else
        let new_shares := existing.shares - shares
        if new_shares = 0 then
          .ok { db with holdings := hDelete db.holdings account_id t }
        else
          .ok { db with holdings := hSetShares db.holdings account_id t new_shares }
  | .SELL, none => .error (.insufficientShares 0)

/-- `cash_service.adjust_cash` (lines 29–53): add `amount` to the existing
(account, currency) balance, or create the row at `amount` if absent. -/
def adjust_cash (db : DB) (account_id : Nat) (currency : String) (amount : ℚ) : DB :=
  let cur := upperStr currency
  match cFind db.cash account_id cur with
  | some existing =>
      { db with cash := cSetBalance db.cash account_id cur (existing.balance + amount) }
  | none =>
      { db with cash := db.cash ++ [⟨account_id, cur, amount⟩] }

/-- `transaction_service.record_transaction` (lines 11–71): validate action,
shares and price (fee and tax are *not* validated), resolve the account's
settlement currency, then — inside one `get_connection` unit — update the
holding, adjust cash by the BUY/SELL delta, and append the immutable
transaction row (`id` = `lastrowid`, modelled as the next list index). -/
def record_transaction (db : DB) (now : ℚ) (account_id : Nat) (ticker action : String)
    (shares price fee tax : ℚ) (executed_at : Option ℚ) (notes : Option String) :
    Except Err (TxnRow × DB) :=
  match parseAction action with
  | none => .error .invalidArgument
  | some act =>
    if shares ≤ 0 then .error .invalidArgument
    else if price ≤ 0 then .error .invalidArgument
    else
      match aFind db.accounts account_id with
      | none => .error .notFound
      | some currency =>
        match update_holding_from_trade db account_id (upperStr ticker) act shares price with
        | .error e => .error e
        | .ok db1 =>
          let total_cost := shares * price
          let cash_change :=
            match act with
            | .BUY => -(total_cost + fee + tax)
            | .SELL => total_cost - fee - tax
          let db2 := adjust_cash db1 account_id currency cash_change
          let tx : TxnRow :=
            { id := db2.transactions.length + 1, account_id := account_id,
              ticker := upperStr ticker, action := act, shares := shares, price := price,
              fee := fee, tax := tax, currency := currency, notes := notes,
              executed_at := executed_at.getD now }
          .ok (tx, { db2 with transactions := db2.transactions ++ [tx] })

/-- The signed cash delta of a trade as `record_transaction` computes it:
`-(shares*price + fee + tax)` for a BUY, `shares*price - fee - tax` for a
SELL. -/
def cashDelta (act : Action) (s p fee tax : ℚ) : ℚ :=
  match act with
  | .BUY => -(s * p + fee + tax)
  | .SELL => s * p - fee - tax

/-- Store-level outcome of one `record_transaction` call: on success
`get_connection` commits the new state; on an exception it rolls the whole
unit back and re-raises, so the observable state is the pre-state. -/
def record_transaction_run (db : DB) (now : ℚ) (account_id : Nat) (ticker action : String)
    (shares price fee tax : ℚ) (executed_at : Option ℚ) (notes : Option String) :
    DB × Option Err :=
  match record_transaction db now account_id ticker action shares price fee tax executed_at notes with
  | .ok (_, db') => (db', none)
  | .error e => (db, some e)

/-- `holding_service.add_holding` (lines 7–48): manual add/import.  Merges into
an existing row with the weighted-average formula, guarding the division by
`new_total_shares > 0` and otherwise writing `avg_cost = 0` — the row is
written back even when the merged share count is 0 or negative.  Returns the
refetched row alongside the new state. -/
def add_holding (db : DB) (account_id : Nat) (ticker : String) (shares avg_cost : ℚ) :
    DB × Option HoldingRow :=
  let t := upperStr ticker
  match hFind db.holdings account_id t with
  | some existing =>
      let new_total_shares := existing.shares + shares
      let new_avg_cost :=
        if new_total_shares > 0 then
          (existing.shares * existing.avg_cost + shares * avg_cost) / new_total_shares
        else 0
      let hs := hSetBoth db.holdings account_id t new_total_shares new_avg_cost
      ({ db with holdings := hs }, hFind hs account_id t)
  | none =>
      let hs := db.holdings ++ [⟨account_id, t, shares, avg_cost⟩]
      ({ db with holdings := hs }, hFind hs account_id t)

/-- One broker-snapshot entry, already normalised to
`{"ticker": ..., "shares": ..., "avg_cost": ...}` as `sync_broker_holdings`
reads it. -/
structure SyncItem where
  ticker : String
  shares : ℚ
  avg_cost : ℚ
deriving DecidableEq

/-- `holding_service.list_holdings`:
`SELECT * FROM holdings WHERE account_id = ? AND shares > 0` (the `ORDER BY
ticker` only affects display order and is dropped). -/
def list_holdings (db : DB) (a : Nat) : List HoldingRow :=
  db.holdings.filter (fun h => decide (h.account_id = a ∧ 0 < h.shares))

/-- `holding_service.remove_holding`: uppercase the ticker, then
`DELETE FROM holdings WHERE account_id = ? AND ticker = ?`. -/
def remove_holding (db : DB) (account_id : Nat) (ticker : String) : DB :=
  { db with holdings := hDelete db.holdings account_id (upperStr ticker) }

/-- Ticker lookup in the pre-read `existing_map = {h.ticker: h for h in existing}`
of `sync_broker_holdings`.  `UNIQUE(account_id, ticker)` makes the tickers of
`existing` pairwise distinct in reachable states, so the first match is the
dictionary entry. -/
def tickFind : List HoldingRow → String → Option HoldingRow
  | [], _ => none
  | h :: rest, t => if h.ticker = t then some h else tickFind rest t

/-- Body of the snapshot loop in `sync_broker_holdings` (lines 29–56), acting
on `(holdings table, added, updated)`: skip non-positive share counts;
overwrite an existing holding only when shares differ or the costs differ by
more than the 0.01 tolerance; insert tickers with no existing row. -/
def syncStep (existing : List HoldingRow) (a : Nat)
    (acc : List HoldingRow × Nat × Nat) (item : SyncItem) : List HoldingRow × Nat × Nat :=
  let t := upperStr item.ticker
  if item.shares ≤ 0 then acc
  else
    match tickFind existing t with
    | some old =>
        if old.shares ≠ item.shares ∨ 1 / 100 < |old.avg_cost - item.avg_cost| then
          (hSetBoth acc.1 a t item.shares item.avg_cost, acc.2.1, acc.2.2 + 1)
        else acc
    | none => (acc.1 ++ [⟨a, t, item.shares, item.avg_cost⟩], acc.2.1 + 1, acc.2.2)

/-- Body of the removal loop of `sync_broker_holdings` (lines 58–63), acting on
`(holdings table, removed)`: each pre-read holding whose ticker the snapshot
does not mention at all is deleted via `remove_holding` (its own connection). -/
def syncRemoveStep (bt : List String) (a : Nat)
    (acc : List HoldingRow × Nat) (h : HoldingRow) : List HoldingRow × Nat :=
  if h.ticker ∈ bt then acc
  else (hDelete acc.1 a (upperStr h.ticker), acc.2 + 1)

/-- `sync_service.sync_broker_holdings` (lines 7–65).  `get_account` first
(raises `NotFound` for an unknown account); `broker_tickers` accumulates every
uppercased snapshot ticker (also the skipped non-positive ones — the `add`
precedes the `continue`) and is only read after the loop, so it is materialised
directly as `items.map (fun i => upperStr i.ticker)`.  Returns the new state with the
`{added, updated, removed}` counts. -/
def sync_broker_holdings (db : DB) (a : Nat) (items : List SyncItem) :
    Except Err (DB × Nat × Nat × Nat) :=
  match aFind db.accounts a with
  | none => .error .notFound
  | some _ =>
    let existing := list_holdings db a
    let bt := items.map (fun i => upperStr i.ticker)
    let r1 := items.foldl (syncStep existing a) (db.holdings, 0, 0)
    let r2 := existing.foldl (syncRemoveStep bt a) (r1.1, 0)
    .ok ({ db with holdings := r2.1 }, r1.2.1, r1.2.2, r2.2)

/-- The first `get_connection` block of `order_service.execute_order`
(lines 71–80): load the order, `NotFound` if missing, `InvalidState` if its
status is not PENDING. -/
def execute_check (db : DB) (order_id : Nat) : Except Err OrderRow :=
  match oFind db.orders order_id with
  | none => .error .notFound
  | some o => if o.status ≠ .PENDING then .error (.invalidState o.status) else .ok o

/-- The final `get_connection` block of `execute_order` (lines 95–106): the
terminal-state write.  It is a plain `UPDATE ... WHERE id = ?` — unconditional
on the current status. -/
def execute_finish (db : DB) (order_id txid : Nat) (now : ℚ) : DB :=
  { db with orders := oSetExecuted db.orders order_id txid now }

/-- The notes string `f"Executed from planned order #{order_id}"`. -/
def orderNote (order_id : Nat) : Option String :=
  some ("Executed from planned order #" ++ toString order_id)

/-- `order_service.execute_order` (lines 64–106): check (first connection),
record the real transaction at the *supplied* actual price (its own
connection inside `record_transaction`), then mark EXECUTED and link the
transaction id (last connection) and return the refetched row.  The refetch
cannot miss, since the checked row still exists; the `.error .notFound` arm
is unreachable. -/
def execute_order (db : DB) (now : ℚ) (order_id : Nat) (actual_price fee tax : ℚ) :
    Except Err (OrderRow × DB) :=
  match execute_check db order_id with
  | .error e => .error e
  | .ok o =>
    match record_transaction db now o.account_id o.ticker (actionStr o.action)
        o.shares actual_price fee tax none (orderNote order_id) with
    | .error e => .error e
    | .ok (tx, db1) =>
      let db2 := execute_finish db1 order_id tx.id now
      match oFind db2.orders order_id with
      | some o' => .ok (o', db2)
      | none => .error .notFound

/-- One `execute_order` call traced across the read-then-write gap: its status
check ran against `check_db` (the state some earlier moment), while the
transaction recording and the terminal write run against `run_db` (the state
reached by the time it resumes).  `execute_order db ... ` is the
uninterleaved special case `check_db = run_db = db`. -/
def execute_interleaved (check_db run_db : DB) (now : ℚ) (order_id : Nat)
    (actual_price fee tax : ℚ) : Except Err (OrderRow × DB) :=
  match execute_check check_db order_id with
  | .error e => .error e
  | .ok o =>
    match record_transaction run_db now o.account_id o.ticker (actionStr o.action)
        o.shares actual_price fee tax none (orderNote order_id) with
    | .error e => .error e
    | .ok (tx, db1) =>
      let db2 := execute_finish db1 order_id tx.id now
      match oFind db2.orders order_id with
      | some o' => .ok (o', db2)
      | none => .error .notFound

/-- `order_service.cancel_order` (lines 109–127): `NotFound` if missing,
`InvalidState` unless PENDING, else set CANCELLED and return the refetched
row. -/
def cancel_order (db : DB) (order_id : Nat) : Except Err (OrderRow × DB) :=
  match oFind db.orders order_id with
  | none => .error .notFound
  | some o =>
    if o.status ≠ .PENDING then .error (.invalidState o.status)
    else
      let os := oSetCancelled db.orders order_id
      match oFind os order_id with
      | some o' => .ok (o', { db with orders := os })
      | none => .error .notFound

/-- The keyword arguments of `order_service.update_order` surviving the
`allowed`-field / non-`None` filter. -/
structure OrderPatch where
  ticker : Option String := none
  action : Option Action := none
  shares : Option ℚ := none
  target_price : Option ℚ := none
  reason : Option String := none
  priority : Option String := none
deriving DecidableEq

/-- The `if not updates` emptiness test of `update_order`. -/
def OrderPatch.isEmpty (p : OrderPatch) : Bool :=
  p.ticker.isNone && p.action.isNone && p.shares.isNone &&
    p.target_price.isNone && p.reason.isNone && p.priority.isNone

/-- The generated `UPDATE planned_orders SET {set_clause} WHERE id = ?`. -/
def oApplyPatch : List OrderRow → Nat → OrderPatch → List OrderRow
  | [], _, _ => []
  | o :: rest, i, p =>
      (if o.id = i then
        { o with ticker := p.ticker.getD o.ticker, action := p.action.getD o.action,
                 shares := p.shares.getD o.shares,
                 target_price := (p.target_price.map some).getD o.target_price,
                 reason := (p.reason.map some).getD o.reason,
                 priority := p.priority.getD o.priority }
       else o) :: oApplyPatch rest i p

/-- `order_service.update_order` (lines 130–155): reject an empty patch, then
`NotFound` if missing, `InvalidState` unless PENDING, else patch the listed
fields and return the refetched row. -/
def update_order (db : DB) (order_id : Nat) (p : OrderPatch) : Except Err (OrderRow × DB) :=
  if p.isEmpty then .error .invalidArgument
  else
    match oFind db.orders order_id with
    | none => .error .notFound
    | some o =>
      if o.status ≠ .PENDING then .error (.invalidState o.status)
      else
        let os := oApplyPatch db.orders order_id p
        match oFind os order_id with
        | some o' => .ok (o', { db with orders := os })
        | none => .error .notFound

/-- Store-level outcome of one `execute_order` call (commit on success,
pre-state on a raise). -/
def execute_order_run (db : DB) (now : ℚ) (order_id : Nat) (actual_price fee tax : ℚ) :
    DB × Option Err :=
  match execute_order db now order_id actual_price fee tax with
  | .ok (_, db') => (db', none)
  | .error e => (db, some e)

/-- Store-level outcome of one `cancel_order` call. -/
def cancel_order_run (db : DB) (order_id : Nat) : DB × Option Err :=
  match cancel_order db order_id with
  | .ok (_, db') => (db', none)
  | .error e => (db, some e)

/-- Store-level outcome of one `update_order` call. -/
def update_order_run (db : DB) (order_id : Nat) (p : OrderPatch) : DB × Option Err :=
  match update_order db order_id p with
  | .ok (_, db') => (db', none)
  | .error e => (db, some e)

/-- `PRICE_CACHE_TTL_MINUTES = 15` (`utils/constants.py`). -/
def PRICE_CACHE_TTL_MINUTES : ℚ := 15

/-- `FX_CACHE_TTL_MINUTES = 60` (`utils/constants.py`). -/
def FX_CACHE_TTL_MINUTES : ℚ := 60

/-- `SELECT * FROM price_cache WHERE ticker = ?`. -/
def pFind : List PriceRow → String → Option PriceRow
  | [], _ => none
  | r :: rest, t => if r.ticker = t then some r else pFind rest t

/-- The `DO UPDATE` arm of the price-cache upsert. -/
def pSet : List PriceRow → String → ℚ → String → ℚ → List PriceRow
  | [], _, _, _, _ => []
  | r :: rest, t, p, c, now =>
      (if r.ticker = t then { r with price := p, currency := c, fetched_at := now } else r)
        :: pSet rest t p c now

/-- `price_service._update_cache`: `INSERT ... ON CONFLICT(ticker) DO UPDATE`,
keeping one row per ticker. -/
def _update_price_cache (cache : List PriceRow) (t : String) (price : ℚ) (currency : String)
    (now : ℚ) : List PriceRow :=
  match pFind cache t with
  | some _ => pSet cache t price currency now
  | none => cache ++ [⟨t, price, currency, now⟩]

/-- `price_service._get_cached_price` (lines 64–78): the cached row, unless
absent or older than the 15-minute TTL (`now - fetched_at > TTL` means
expired). -/
def _get_cached_price (cache : List PriceRow) (now : ℚ) (ticker : String) : Option (ℚ × String) :=
  match pFind cache ticker with
  | none => none
  | some row =>
      if PRICE_CACHE_TTL_MINUTES < now - row.fetched_at then none
      else some (row.price, row.currency)

/-- `price_service.fetch_price` (lines 11–47) with the Yahoo call abstracted as
`source : ticker → Option (price, currency)` (`None` models the
"Could not fetch price" failure).  The `Bool` is the `cached` tag of the
returned dict. -/
def fetch_price (cache : List PriceRow) (source : String → Option (ℚ × String)) (now : ℚ)
    (ticker : String) : Except Err ((ℚ × String × Bool) × List PriceRow) :=
  let t := upperStr ticker
  match _get_cached_price cache now t with
  | some (p, c) => .ok ((p, c, true), cache)
  | none =>
    match source t with
    | none => .error .unavailable
    | some (p, c) => .ok ((p, c, false), _update_price_cache cache t p c now)

/-- `SELECT * FROM exchange_rates WHERE from_currency = ? AND to_currency = ?`. -/
def rFind : List RateRow → String → String → Option RateRow
  | [], _, _ => none
  | r :: rest, fc, tc =>
      if r.from_currency = fc ∧ r.to_currency = tc then some r else rFind rest fc tc

/-- The `DO UPDATE` arm of the FX-cache upsert. -/
def rSet : List RateRow → String → String → ℚ → ℚ → List RateRow
  | [], _, _, _, _ => []
  | r :: rest, fc, tc, v, now =>
      (if r.from_currency = fc ∧ r.to_currency = tc then { r with rate := v, fetched_at := now }
       else r) :: rSet rest fc tc v now

/-- `fx_service._update_cache`: `INSERT ... ON CONFLICT(from_currency,
to_currency) DO UPDATE`, one row per pair. -/
def _update_rate_cache (cache : List RateRow) (fc tc : String) (rate now : ℚ) : List RateRow :=
  match rFind cache fc tc with
  | some _ => rSet cache fc tc rate now
  | none => cache ++ [⟨fc, tc, rate, now⟩]

/-- `fx_service._get_cached_rate` (lines 61–76): the cached rate, unless absent
or older than the 60-minute TTL. -/
def _get_cached_rate (cache : List RateRow) (now : ℚ) (fc tc : String) : Option ℚ :=
  match rFind cache fc tc with
  | none => none
  | some row =>
      if FX_CACHE_TTL_MINUTES < now - row.fetched_at then none
      else some row.rate

/-- `fx_service.fetch_rate` (lines 11–37) with the Yahoo call abstracted as
`source`.  Same-currency pairs short-circuit to `1.0` before any cache or
network access. -/
def fetch_rate (cache : List RateRow) (source : String → String → Option ℚ) (now : ℚ)
    (from_currency to_currency : String) : Except Err (ℚ × List RateRow) :=
  let fc := upperStr from_currency
  let tc := upperStr to_currency
  if fc = tc then .ok (1, cache)
  else
    match _get_cached_rate cache now fc tc with
    | some r => .ok (r, cache)
    | none =>
      match source fc tc with
      | none => .error .unavailable
      | some r => .ok (r, _update_rate_cache cache fc tc r now)

/-- A sequence of buy trades of the same (account, ticker) applied through
`update_holding_from_trade`, each entry a `(shares, price)` pair.  A BUY never
raises, so the error fallthrough (kept for totality) is unreachable. -/
def applyBuys (a : Nat) (t : String) : DB → List (ℚ × ℚ) → DB
  | db, [] => db
  | db, (s, p) :: rest =>
      match update_holding_from_trade db a t .BUY s p with
      | .ok db' => applyBuys a t db' rest
      | .error _ => applyBuys a t db rest

/-- Total number of shares bought over a buy sequence. -/
def buysShares (l : List (ℚ × ℚ)) : ℚ := (l.map Prod.fst).sum

/-- Total cost (Σ sharesᵢ · priceᵢ) of a buy sequence; `buysCost l / buysShares l`
is the share-weighted mean of the buy prices. -/
def buysCost (l : List (ℚ × ℚ)) : ℚ := (l.map (fun x => x.1 * x.2)).sum

/-- Balance that `adjust_cash` starts from: the existing (account, currency)
balance, or 0 when the row is created lazily. -/
def cashBalance (db : DB) (a : Nat) (cur : String) : ℚ :=
  match cFind db.cash a cur with
  | some c => c.balance
  | none => 0

/-- The row `sync_broker_holdings` would see for (account, ticker): first
positive-share row of the account with that ticker — `tickFind` over
`list_holdings`-visible rows. -/
def posFind (hs : List HoldingRow) (a : Nat) (t : String) : Option HoldingRow :=
  tickFind (hs.filter (fun h => decide (h.account_id = a ∧ 0 < h.shares))) t

/-- State reached by an `execute_order`-style call, the fallback being the
rolled-back pre-state. -/
def afterExec (r : Except Err (OrderRow × DB)) (fallback : DB) : DB :=
  match r with
  | .ok (_, d) => d
  | .error _ => fallback

/-- State reached by a `sync_broker_holdings` call, the fallback being the
rolled-back pre-state. -/
def afterSync (r : Except Err (DB × Nat × Nat × Nat)) (fallback : DB) : DB :=
  match r with
  | .ok (d, _) => d
  | .error _ => fallback

/-- Counts returned by a `sync_broker_holdings` call ((0,0,0) on a raise). -/
def syncCounts (r : Except Err (DB × Nat × Nat × Nat)) : Nat × Nat × Nat :=
  match r with
  | .ok (_, c) => c
  | .error _ => (0, 0, 0)

/-- Initial store of the double-execution trace: one account (id 1, TWD) and
one PENDING planned order (id 1) to buy 1 share of 2330.TW. -/
def raceDb : DB :=
  ⟨[(1, "TWD")], [], [], [],
   [⟨1, 1, "2330.TW", .BUY, 1, none, none, "NORMAL", .PENDING, none, none⟩]⟩

/-- State after the first of the two interleaved `execute_order` calls on
`raceDb` finishes (check at `raceDb`, body at `raceDb`). -/
def raceDbAfter1 : DB := afterExec (execute_interleaved raceDb raceDb 0 1 10 0 0) raceDb

/-- State after the second interleaved call (its check also read `raceDb`,
before the first call's terminal write; its body runs on `raceDbAfter1`). -/
def raceDbAfter2 : DB := afterExec (execute_interleaved raceDb raceDbAfter1 0 1 10 0 0) raceDb

/-! Helper lemmas about the table operations.  They package the interaction of
the first-match `SELECT` scans with `UPDATE` / `DELETE` / `INSERT`. -/

theorem hFind_eq_key {l : List HoldingRow} {a : Nat} {t : String} {h : HoldingRow}
    (hf : hFind l a t = some h) : h.account_id = a ∧ h.ticker = t := by
  induction l with
  | nil => simp [hFind] at hf
  | cons x rest ih =>
    by_cases hx : x.account_id = a ∧ x.ticker = t
    · simp [hFind, hx] at hf
      subst hf
      exact hx
    · simp [hFind, hx] at hf
      exact ih hf

theorem hFind_hSetBoth_self {l : List HoldingRow} {a : Nat} {t : String} {h : HoldingRow}
    (hf : hFind l a t = some h) (s c : ℚ) :
    hFind (hSetBoth l a t s c) a t = some ⟨a, t, s, c⟩ := by
  induction l with
  | nil => simp [hFind] at hf
  | cons x rest ih =>
    by_cases hx : x.account_id = a ∧ x.ticker = t
    · obtain ⟨h1, h2⟩ := hx
      subst h1
      subst h2
      simp [hFind, hSetBoth]
    · simp [hFind, hx] at hf
      simp [hSetBoth, hFind, hx, if_neg hx]
      exact ih hf

theorem hFind_hSetShares_self {l : List HoldingRow} {a : Nat} {t : String} {h : HoldingRow}
    (hf : hFind l a t = some h) (s : ℚ) :
    hFind (hSetShares l a t s) a t = some ⟨a, t, s, h.avg_cost⟩ := by
  induction l with
  | nil => simp [hFind] at hf
  | cons x rest ih =>
    by_cases hx : x.account_id = a ∧ x.ticker = t
    · obtain ⟨h1, h2⟩ := hx
      subst h1
      subst h2
      simp [hFind] at hf
      subst hf
      simp [hSetShares, hFind]
    · simp [hFind, hx] at hf
      simp [hSetShares, hFind, hx, if_neg hx]
      exact ih hf

theorem hFind_hDelete_self (l : List HoldingRow) (a : Nat) (t : String) :
    hFind (hDelete l a t) a t = none := by
  induction l with
  | nil => simp [hFind, hDelete]
  | cons x rest ih =>
    by_cases hx : x.account_id = a ∧ x.ticker = t
    · simpa [hDelete, hx]
    · simpa [hDelete, hx, hFind]

theorem hFind_append_of_none {l : List HoldingRow} {a : Nat} {t : String}
    (hf : hFind l a t = none) (r : HoldingRow) :
    hFind (l ++ [r]) a t = if r.account_id = a ∧ r.ticker = t then some r else none := by
  induction l with
  | nil => simp [hFind]
  | cons x rest ih =>
    by_cases hx : x.account_id = a ∧ x.ticker = t
    · simp [hFind, hx] at hf
    · simp [hFind, hx] at hf ⊢
      exact ih hf

theorem mem_hSetBoth {l : List HoldingRow} {a : Nat} {t : String} {s c : ℚ} {x : HoldingRow}
    (hx : x ∈ hSetBoth l a t s c) :
    ∃ y ∈ l, x = y ∨ x = { y with shares := s, avg_cost := c } := by
  induction l with
  | nil => simp [hSetBoth] at hx
  | cons z rest ih =>
    by_cases hz : z.account_id = a ∧ z.ticker = t
    · obtain ⟨hz1, hz2⟩ := hz
      subst hz1
      subst hz2
      simp [hSetBoth] at hx
      rcases hx with hx | hx
      · exact ⟨z, by simp, Or.inr hx⟩
      · obtain ⟨y, hy, hxy⟩ := ih hx
        exact ⟨y, by simp [hy], hxy⟩
    · simp [hSetBoth, hz] at hx
      rcases hx with hx | hx
      · exact ⟨z, by simp, Or.inl hx⟩
      · obtain ⟨y, hy, hxy⟩ := ih hx
        exact ⟨y, by simp [hy], hxy⟩

theorem mem_hSetShares {l : List HoldingRow} {a : Nat} {t : String} {s : ℚ} {x : HoldingRow}
    (hx : x ∈ hSetShares l a t s) :
    ∃ y ∈ l, x = y ∨ x = { y with shares := s } := by
  induction l with
  | nil => simp [hSetShares] at hx
  | cons z rest ih =>
    by_cases hz : z.account_id = a ∧ z.ticker = t
    · obtain ⟨hz1, hz2⟩ := hz
      subst hz1
      subst hz2
      simp [hSetShares] at hx
      rcases hx with hx | hx
      · exact ⟨z, by simp, Or.inr hx⟩
      · obtain ⟨y, hy, hxy⟩ := ih hx
        exact ⟨y, by simp [hy], hxy⟩
    · simp [hSetShares, hz] at hx
      rcases hx with hx | hx
      · exact ⟨z, by simp, Or.inl hx⟩
      · obtain ⟨y, hy, hxy⟩ := ih hx
        exact ⟨y, by simp [hy], hxy⟩

theorem mem_hDelete {l : List HoldingRow} {a : Nat} {t : String} {x : HoldingRow}
    (hx : x ∈ hDelete l a t) : x ∈ l ∧ ¬(x.account_id = a ∧ x.ticker = t) := by
  induction l with
  | nil => simp [hDelete] at hx
  | cons z rest ih =>
    by_cases hz : z.account_id = a ∧ z.ticker = t
    · simp [hDelete, hz] at hx
      obtain ⟨h1, h2⟩ := ih hx
      exact ⟨by simp [h1], h2⟩
    · simp [hDelete, hz] at hx
      rcases hx with hx | hx
      · subst hx
        exact ⟨by simp, hz⟩
      · obtain ⟨h1, h2⟩ := ih hx
        exact ⟨by simp [h1], h2⟩

theorem cFind_cSetBalance_self {l : List CashRow} {a : Nat} {cur : String} {c : CashRow}
    (hf : cFind l a cur = some c) (b : ℚ) :
    cFind (cSetBalance l a cur b) a cur = some ⟨a, cur, b⟩ := by
  induction l with
  | nil => simp [cFind] at hf
  | cons x rest ih =>
    by_cases hx : x.account_id = a ∧ x.currency = cur
    · obtain ⟨h1, h2⟩ := hx
      subst h1
      subst h2
      simp [cFind, cSetBalance]
    · simp [cFind, hx] at hf
      simp [cSetBalance, cFind, hx, if_neg hx]
      exact ih hf

theorem cFind_append_of_none {l : List CashRow} {a : Nat} {cur : String}
    (hf : cFind l a cur = none) (r : CashRow) :
    cFind (l ++ [r]) a cur = if r.account_id = a ∧ r.currency = cur then some r else none := by
  induction l with
  | nil => simp [cFind]
  | cons x rest ih =>
    by_cases hx : x.account_id = a ∧ x.currency = cur
    · simp [cFind, hx] at hf
    · simp [cFind, hx] at hf ⊢
      exact ih hf

theorem oFind_eq_key {l : List OrderRow} {i : Nat} {o : OrderRow}
    (hf : oFind l i = some o) : o.id = i := by
  induction l with
  | nil => simp [oFind] at hf
  | cons x rest ih =>
    by_cases hx : x.id = i
    · simp [oFind, hx] at hf
      subst hf
      exact hx
    · simp [oFind, hx] at hf
      exact ih hf

theorem oFind_oSetExecuted_self {l : List OrderRow} {i : Nat} {o : OrderRow}
    (hf : oFind l i = some o) (txid : Nat) (now : ℚ) :
    oFind (oSetExecuted l i txid now) i =
      some { o with status := .EXECUTED, executed_at := some now,
                    linked_transaction_id := some txid } := by
  induction l with
  | nil => simp [oFind] at hf
  | cons x rest ih =>
    by_cases hx : x.id = i
    · subst hx
      simp [oFind] at hf
      subst hf
      simp [oSetExecuted, oFind]
    · simp [oFind, hx] at hf
      simp [oSetExecuted, oFind, hx, if_neg hx]
      exact ih hf

theorem oFind_oSetCancelled_self {l : List OrderRow} {i : Nat} {o : OrderRow}
    (hf : oFind l i = some o) :
    oFind (oSetCancelled l i) i = some { o with status := .CANCELLED } := by
  induction l with
  | nil => simp [oFind] at hf
  | cons x rest ih =>
    by_cases hx : x.id = i
    · subst hx
      simp [oFind] at hf
      subst hf
      simp [oSetCancelled, oFind]
    · simp [oFind, hx] at hf
      simp [oSetCancelled, oFind, hx, if_neg hx]
      exact ih hf

theorem oFind_oApplyPatch_self {l : List OrderRow} {i : Nat} {o : OrderRow}
    (hf : oFind l i = some o) (p : OrderPatch) :
    oFind (oApplyPatch l i p) i =
      some { o with ticker := p.ticker.getD o.ticker, action := p.action.getD o.action,
                    shares := p.shares.getD o.shares,
                    target_price := (p.target_price.map some).getD o.target_price,
                    reason := (p.reason.map some).getD o.reason,
                    priority := p.priority.getD o.priority } := by
  induction l with
  | nil => simp [oFind] at hf
  | cons x rest ih =>
    by_cases hx : x.id = i
    · subst hx
      simp [oFind] at hf
      subst hf
      simp [oApplyPatch, oFind]
    · simp [oFind, hx] at hf
      simp [oApplyPatch, oFind, hx, if_neg hx]
      exact ih hf

/-! Frame lemmas: which tables each routine leaves untouched, and the balance
written by `adjust_cash`. -/

theorem update_holding_frame {db db' : DB} {a : Nat} {t : String} {act : Action} {s p : ℚ}
    (h : update_holding_from_trade db a t act s p = .ok db') :
    db'.accounts = db.accounts ∧ db'.cash = db.cash ∧
      db'.transactions = db.transactions ∧ db'.orders = db.orders := by
  cases act with
  | BUY =>
    cases hf : hFind db.holdings a (upperStr t) with
    | none =>
      simp [update_holding_from_trade, hf] at h
      subst h
      exact ⟨rfl, rfl, rfl, rfl⟩
    | some ex =>
      simp [update_holding_from_trade, hf] at h
      subst h
      exact ⟨rfl, rfl, rfl, rfl⟩
  | SELL =>
    cases hf : hFind db.holdings a (upperStr t) with
    | none => simp [update_holding_from_trade, hf] at h
    | some ex =>
      simp [update_holding_from_trade, hf] at h
      split at h
      · exact absurd h (by simp)
      · split at h <;>
        · simp at h
          subst h
          exact ⟨rfl, rfl, rfl, rfl⟩

theorem adjust_cash_frame (db : DB) (a : Nat) (cur : String) (amount : ℚ) :
    (adjust_cash db a cur amount).accounts = db.accounts ∧
      (adjust_cash db a cur amount).holdings = db.holdings ∧
      (adjust_cash db a cur amount).transactions = db.transactions ∧
      (adjust_cash db a cur amount).orders = db.orders := by
  cases h : cFind db.cash a (upperStr cur) <;> simp [adjust_cash, h]

theorem adjust_cash_transactions (db : DB) (a : Nat) (cur : String) (amount : ℚ) :
    (adjust_cash db a cur amount).transactions = db.transactions := by
  cases h : cFind db.cash a (upperStr cur) <;> simp [adjust_cash, h]

theorem adjust_cash_orders (db : DB) (a : Nat) (cur : String) (amount : ℚ) :
    (adjust_cash db a cur amount).orders = db.orders := by
  cases h : cFind db.cash a (upperStr cur) <;> simp [adjust_cash, h]

theorem adjust_cash_spec (db : DB) (a : Nat) (cur : String) (amount : ℚ)
    (hcur : upperStr cur = cur) :
    cFind (adjust_cash db a cur amount).cash a cur =
      some ⟨a, cur, cashBalance db a cur + amount⟩ := by
  cases h : cFind db.cash a cur with
  | some c =>
    have : cFind db.cash a (upperStr cur) = some c := by rw [hcur]; exact h
    simp [adjust_cash, this, hcur, cashBalance, h]
    exact cFind_cSetBalance_self h _
  | none =>
    have : cFind db.cash a (upperStr cur) = none := by rw [hcur]; exact h
    simp [adjust_cash, this, hcur, cashBalance, h]
    rw [cFind_append_of_none h]
    simp

/-! Characterisations of the trade paths of `update_holding_from_trade`. -/

theorem buy_of_none {db : DB} {a : Nat} {t : String} (s p : ℚ)
    (hf : hFind db.holdings a (upperStr t) = none) :
    update_holding_from_trade db a t .BUY s p =
      .ok { db with holdings := db.holdings ++ [⟨a, upperStr t, s, p⟩] } := by
  simp [update_holding_from_trade, hf]

theorem buy_of_some {db : DB} {a : Nat} {t : String} {ex : HoldingRow} (s p : ℚ)
    (hf : hFind db.holdings a (upperStr t) = some ex) :
    update_holding_from_trade db a t .BUY s p =
      .ok { db with holdings := (hSetBoth db.holdings a (upperStr t) (ex.shares + s)
            ((ex.shares * ex.avg_cost + s * p) / (ex.shares + s))) } := by
  simp [update_holding_from_trade, hf]

theorem applyBuys_inv (a : Nat) (t : String) :
    ∀ (buys : List (ℚ × ℚ)) (db : DB) (S W : ℚ),
      0 < S → (∀ x ∈ buys, 0 < x.1) →
      hFind db.holdings a (upperStr t) = some ⟨a, upperStr t, S, W / S⟩ →
      hFind (applyBuys a t db buys).holdings a (upperStr t) =
        some ⟨a, upperStr t, S + buysShares buys, (W + buysCost buys) / (S + buysShares buys)⟩
  | [], db, S, W, hS, _, hf => by
      simpa [applyBuys, buysShares, buysCost] using hf
  | (s, p) :: rest, db, S, W, hS, hpos, hf => by
      have hs : 0 < s := hpos (s, p) (by simp)
      have hrest : ∀ x ∈ rest, 0 < x.1 := fun x hx => hpos x (by simp [hx])
      have hSs : 0 < S + s := by linarith
      have hS0 : S ≠ 0 := ne_of_gt hS
      have hstep := buy_of_some s p hf
      have harith : S * (W / S) + s * p = W + s * p := by
        field_simp
      have hf' : hFind (hSetBoth db.holdings a (upperStr t) (S + s)
          ((S * (W / S) + s * p) / (S + s))) a (upperStr t) =
          some ⟨a, upperStr t, S + s, (W + s * p) / (S + s)⟩ := by
        rw [harith]
        exact hFind_hSetBoth_self hf _ _
      have hrec := applyBuys_inv a t rest
        { db with holdings := (hSetBoth db.holdings a (upperStr t) (S + s)
            ((S * (W / S) + s * p) / (S + s))) }
        (S + s) (W + s * p) hSs hrest hf'
      simp only [applyBuys, hstep]
      rw [(by simp [buysShares]; ring :
            S + buysShares ((s, p) :: rest) = S + s + buysShares rest),
          (by simp [buysCost]; ring :
            W + buysCost ((s, p) :: rest) = W + s * p + buysCost rest)]
      exact hrec

/-- C2: a BUY with no existing holding creates the row `(shares, avg_cost) =
(bought shares, trade price)`; a BUY onto an existing `(old_shares, old_cost)`
row yields `old_shares + shares` shares at the weighted-average cost
`(old_shares*old_cost + shares*price) / (old_shares + shares)`; consequently
after any non-empty sequence of buys of positive share counts starting from no
holding, `avg_cost` equals the share-weighted mean of the buy prices — exactly,
hence a fortiori within the 1e-6 tolerance. -/
theorem claim_C2 :
    (∀ (db : DB) (a : Nat) (t : String) (s p : ℚ),
        hFind db.holdings a (upperStr t) = none →
        update_holding_from_trade db a t .BUY s p =
          .ok { db with holdings := db.holdings ++ [⟨a, upperStr t, s, p⟩] }) ∧
    (∀ (db : DB) (a : Nat) (t : String) (ex : HoldingRow) (s p : ℚ),
        hFind db.holdings a (upperStr t) = some ex →
        update_holding_from_trade db a t .BUY s p =
          .ok { db with holdings := (hSetBoth db.holdings a (upperStr t) (ex.shares + s)
                ((ex.shares * ex.avg_cost + s * p) / (ex.shares + s))) }) ∧
    (∀ (db : DB) (a : Nat) (t : String) (buys : List (ℚ × ℚ)),
        buys ≠ [] → (∀ x ∈ buys, 0 < x.1) →
        hFind db.holdings a (upperStr t) = none →
        hFind (applyBuys a t db buys).holdings a (upperStr t) =
          some ⟨a, upperStr t, buysShares buys, buysCost buys / buysShares buys⟩ ∧
        ∀ r, hFind (applyBuys a t db buys).holdings a (upperStr t) = some r →
          |r.avg_cost - buysCost buys / buysShares buys| ≤ 1 / 1000000) := by
  refine ⟨fun db a t s p hf => buy_of_none s p hf,
          fun db a t ex s p hf => buy_of_some s p hf,
          fun db a t buys hne hpos hf => ?_⟩
  match buys, hne with
  | (s, p) :: rest, _ =>
    have hs : 0 < s := hpos (s, p) (by simp)
    have hs0 : s ≠ 0 := ne_of_gt hs
    have hrest : ∀ x ∈ rest, 0 < x.1 := fun x hx => hpos x (by simp [hx])
    have hstep := buy_of_none s p hf
    have hf1 : hFind (db.holdings ++ [⟨a, upperStr t, s, p⟩]) a (upperStr t) =
        some ⟨a, upperStr t, s, s * p / s⟩ := by
      rw [hFind_append_of_none hf]
      simp [mul_div_cancel_left₀ p hs0]
    have hmain := applyBuys_inv a t rest
      { db with holdings := db.holdings ++ [⟨a, upperStr t, s, p⟩] } s (s * p) hs hrest hf1
    have hfinal : hFind (applyBuys a t db ((s, p) :: rest)).holdings a (upperStr t) =
        some ⟨a, upperStr t, buysShares ((s, p) :: rest),
              buysCost ((s, p) :: rest) / buysShares ((s, p) :: rest)⟩ := by
      simp only [applyBuys, hstep]
      rw [(by simp [buysShares] : buysShares ((s, p) :: rest) = s + buysShares rest),
          (by simp [buysCost] : buysCost ((s, p) :: rest) = s * p + buysCost rest)]
      exact hmain
    refine ⟨hfinal, fun r hr => ?_⟩
    rw [hfinal] at hr
    obtain rfl : r = _ := (Option.some_inj.mp hr).symm
    simp

/-- Witness for C2: buying 1 share at 10 then 3 shares at 20 from an empty
store yields 4 shares at the weighted mean (1·10 + 3·20)/4 = 17.5. -/
theorem claim_C2_witness :
    hFind (applyBuys 1 "2330.TW" ⟨[], [], [], [], []⟩ [(1, 10), (3, 20)]).holdings 1
        (upperStr "2330.TW") = some ⟨1, upperStr "2330.TW", 4, 35 / 2⟩ := by
  have h := (claim_C2.2.2 ⟨[], [], [], [], []⟩ 1 "2330.TW" [(1, 10), (3, 20)]
    (by decide) (by decide) (by simp [hFind])).1
  rw [h]
  norm_num [buysShares, buysCost]

/-- C4: a SELL of `s` shares against an existing holding with at least `s`
shares succeeds, the share count drops by exactly `s`, `avg_cost` is left
unchanged, and when the remainder is exactly 0 the row is deleted instead of
being kept at zero shares (cash and the transaction log are untouched by the
holding routine itself). -/
theorem claim_C4 : ∀ (db : DB) (a : Nat) (t : String) (ex : HoldingRow) (s p : ℚ),
    hFind db.holdings a (upperStr t) = some ex → 0 < s → s ≤ ex.shares →
    ∃ db', update_holding_from_trade db a t .SELL s p = .ok db' ∧
      db'.cash = db.cash ∧ db'.transactions = db.transactions ∧
      (s = ex.shares → hFind db'.holdings a (upperStr t) = none) ∧
      (s < ex.shares →
        hFind db'.holdings a (upperStr t) = some ⟨a, upperStr t, ex.shares - s, ex.avg_cost⟩) := by
  intro db a t ex s p hf hs hle
  have hnotlt : ¬ ex.shares < s := not_lt.mpr hle
  by_cases heq : ex.shares - s = 0
  · refine ⟨{ db with holdings := hDelete db.holdings a (upperStr t) }, ?_, rfl, rfl, ?_, ?_⟩
    · simp [update_holding_from_trade, hf, hnotlt, heq]
    · intro _
      exact hFind_hDelete_self _ _ _
    · intro hlt
      exact absurd heq (by intro h0; have := sub_eq_zero.mp h0; linarith)
  · refine ⟨{ db with holdings := hSetShares db.holdings a (upperStr t) (ex.shares - s) },
      ?_, rfl, rfl, ?_, ?_⟩
    · simp [update_holding_from_trade, hf, hnotlt, heq]
    · intro h0
      exact absurd (by rw [h0]; ring : ex.shares - s = 0) heq
    · intro _
      exact hFind_hSetShares_self hf _

/-- Witness for C4: the spec's §8 sell scenario — holding 1000 shares of
2330.TW at cost 580.5, selling 400 leaves 600 shares at the unchanged cost. -/
theorem claim_C4_witness :
    ∃ db', update_holding_from_trade ⟨[], [⟨1, "2330.TW", 1000, 1161 / 2⟩], [], [], []⟩ 1
        "2330.TW" .SELL 400 600 = .ok db' ∧
      hFind db'.holdings 1 (upperStr "2330.TW") =
        some ⟨1, upperStr "2330.TW", 600, 1161 / 2⟩ := by
  obtain ⟨db', h1, _, _, _, h5⟩ := claim_C4 ⟨[], [⟨1, "2330.TW", 1000, 1161 / 2⟩], [], [], []⟩ 1
    "2330.TW" ⟨1, "2330.TW", 1000, 1161 / 2⟩ 400 600
    (by simp [hFind, show upperStr "2330.TW" = "2330.TW" from by decide])
    (by norm_num) (by norm_num)
  refine ⟨db', h1, ?_⟩
  have := h5 (by norm_num)
  rwa [(by norm_num : (1000 : ℚ) - 400 = 600)] at this

theorem sell_insufficient_none {db : DB} {a : Nat} {t : String} (s p : ℚ)
    (hf : hFind db.holdings a (upperStr t) = none) :
    update_holding_from_trade db a t .SELL s p = .error (.insufficientShares 0) := by
  simp [update_holding_from_trade, hf]

theorem sell_insufficient_some {db : DB} {a : Nat} {t : String} {ex : HoldingRow} (s p : ℚ)
    (hf : hFind db.holdings a (upperStr t) = some ex) (hlt : ex.shares < s) :
    update_holding_from_trade db a t .SELL s p = .error (.insufficientShares ex.shares) := by
  simp [update_holding_from_trade, hf, hlt]

/-- An `Except` value whose `isOk` test passes is an `ok`. -/
theorem exceptIsOk_exists {e : Except Err (TxnRow × DB)} (h : e.isOk = true) :
    ∃ x, e = .ok x := by
  cases e with
  | error _ => simp [Except.isOk, Except.toBool] at h
  | ok x => exact ⟨x, rfl⟩

/-- Full characterisation of a committed `record_transaction` call: the log
grows by exactly the returned row (which copies shares/price/fee/tax as
supplied), orders are untouched, and the settlement-currency cash moves by
`cashDelta`. -/
theorem record_ok_out {db db' : DB} {now : ℚ} {a : Nat} {tkr act : String} {actA : Action}
    {s p fee tax : ℚ} {ex_at : Option ℚ} {notes : Option String} {tx : TxnRow}
    (hparse : parseAction act = some actA)
    (hrec : record_transaction db now a tkr act s p fee tax ex_at notes = .ok (tx, db')) :
    db'.transactions = db.transactions ++ [tx] ∧ tx.price = p ∧ tx.shares = s ∧
      tx.fee = fee ∧ tx.tax = tax ∧ tx.action = actA ∧ tx.account_id = a ∧
      db'.orders = db.orders ∧ tx.executed_at = ex_at.getD now ∧
      ∀ cur, aFind db.accounts a = some cur → upperStr cur = cur →
        tx.currency = cur ∧
        cFind db'.cash a cur = some ⟨a, cur, cashBalance db a cur + cashDelta actA s p fee tax⟩ := by
  cases actA with
  | BUY =>
    simp only [record_transaction, hparse] at hrec
    split at hrec
    · simp at hrec
    · split at hrec
      · simp at hrec
      · split at hrec
        · simp at hrec
        · next cur hacc =>
          split at hrec
          · simp at hrec
          · next db1 hupd =>
            simp only [Except.ok.injEq, Prod.mk.injEq] at hrec
            obtain ⟨htx, hdb⟩ := hrec
            subst htx
            subst hdb
            have hcash1 : db1.cash = db.cash := (update_holding_frame hupd).2.1
            have htr1 : db1.transactions = db.transactions := (update_holding_frame hupd).2.2.1
            have hor1 : db1.orders = db.orders := (update_holding_frame hupd).2.2.2
            refine ⟨?_, rfl, rfl, rfl, rfl, rfl, rfl, ?_, rfl, ?_⟩
            · simp [adjust_cash_transactions, htr1]
            · simp [adjust_cash_orders, hor1]
            · intro cur' hacc' hcur'
              rw [hacc'] at hacc
              obtain rfl : cur' = cur := Option.some_inj.mp hacc
              refine ⟨rfl, ?_⟩
              have hspec := adjust_cash_spec db1 a cur' (-(s * p + fee + tax)) hcur'
              have hbal : cashBalance db1 a cur' = cashBalance db a cur' := by
                simp [cashBalance, hcash1]
              simpa [hbal, cashDelta] using hspec
  | SELL =>
    simp only [record_transaction, hparse] at hrec
    split at hrec
    · simp at hrec
    · split at hrec
      · simp at hrec
      · split at hrec
        · simp at hrec
        · next cur hacc =>
          split at hrec
          · simp at hrec
          · next db1 hupd =>
            simp only [Except.ok.injEq, Prod.mk.injEq] at hrec
            obtain ⟨htx, hdb⟩ := hrec
            subst htx
            subst hdb
            have hcash1 : db1.cash = db.cash := (update_holding_frame hupd).2.1
            have htr1 : db1.transactions = db.transactions := (update_holding_frame hupd).2.2.1
            have hor1 : db1.orders = db.orders := (update_holding_frame hupd).2.2.2
            refine ⟨?_, rfl, rfl, rfl, rfl, rfl, rfl, ?_, rfl, ?_⟩
            · simp [adjust_cash_transactions, htr1]
            · simp [adjust_cash_orders, hor1]
            · intro cur' hacc' hcur'
              rw [hacc'] at hacc
              obtain rfl : cur' = cur := Option.some_inj.mp hacc
              refine ⟨rfl, ?_⟩
              have hspec := adjust_cash_spec db1 a cur' (s * p - fee - tax) hcur'
              have hbal : cashBalance db1 a cur' = cashBalance db a cur' := by
                simp [cashBalance, hcash1]
              simpa [hbal, cashDelta] using hspec

/-- A trade whose validations pass and whose holding step succeeds commits:
used to exhibit concrete committed trades. -/
theorem record_ok_exists {db db1 : DB} {a : Nat} {tkr act : String} {actA : Action}
    {s p : ℚ} (now fee tax : ℚ) (ex_at : Option ℚ) (notes : Option String) {cur : String}
    (hparse : parseAction act = some actA) (hs : 0 < s) (hp : 0 < p)
    (hacc : aFind db.accounts a = some cur)
    (hupd : update_holding_from_trade db a (upperStr tkr) actA s p = .ok db1) :
    ∃ tx db', record_transaction db now a tkr act s p fee tax ex_at notes = .ok (tx, db') := by
  have hns : ¬ s ≤ 0 := not_le.mpr hs
  have hnp : ¬ p ≤ 0 := not_le.mpr hp
  have hok : (record_transaction db now a tkr act s p fee tax ex_at notes).isOk = true := by
    simp only [record_transaction, hparse, if_neg hns, if_neg hnp, hacc, hupd, Except.isOk,
      Except.toBool]
  obtain ⟨⟨tx, db'⟩, h⟩ := exceptIsOk_exists hok
  exact ⟨tx, db', h⟩

/-- C1: a SELL through `record_transaction` against an account holding no row
for the ticker, or fewer shares than requested, raises `InsufficientShares`
(reporting the held amount) and the observable post-state is exactly the
pre-state — holdings, every cash balance, and the transaction log included —
because the holding step raises before any write and `get_connection` rolls
the unit back. -/
theorem claim_C1 : ∀ (db : DB) (now : ℚ) (a : Nat) (tkr : String) (s p fee tax : ℚ)
    (ex_at : Option ℚ) (notes : Option String) (cur : String),
    upperStr tkr = tkr →
    aFind db.accounts a = some cur →
    0 < s → 0 < p →
    (hFind db.holdings a tkr = none ∨ ∃ ex, hFind db.holdings a tkr = some ex ∧ ex.shares < s) →
    ∃ held, record_transaction_run db now a tkr "SELL" s p fee tax ex_at notes =
      (db, some (.insufficientShares held)) := by
  intro db now a tkr s p fee tax ex_at notes cur htkr hacc hs hp hins
  have hps : parseAction "SELL" = some .SELL := by decide
  have hns : ¬ s ≤ 0 := not_le.mpr hs
  have hnp : ¬ p ≤ 0 := not_le.mpr hp
  rcases hins with hnone | ⟨ex, hex, hlt⟩
  · refine ⟨0, ?_⟩
    have hupd : update_holding_from_trade db a (upperStr tkr) .SELL s p =
        .error (.insufficientShares 0) := by
      apply sell_insufficient_none
      rw [htkr, htkr]
      exact hnone
    simp [record_transaction_run, record_transaction, hps, hns, hnp, hacc, hupd]
  · refine ⟨ex.shares, ?_⟩
    have hupd : update_holding_from_trade db a (upperStr tkr) .SELL s p =
        .error (.insufficientShares ex.shares) := by
      refine sell_insufficient_some s p ?_ hlt
      rw [htkr, htkr]
      exact hex
    simp [record_transaction_run, record_transaction, hps, hns, hnp, hacc, hupd]

/-- Witness for C1: selling 400 shares of 2330.TW out of an account with no
holdings fails with `InsufficientShares` and leaves the store untouched. -/
theorem claim_C1_witness :
    ∃ held, record_transaction_run ⟨[(1, "TWD")], [], [], [], []⟩ 0 1 "2330.TW" "SELL" 400 600
        20 0 none none = (⟨[(1, "TWD")], [], [], [], []⟩, some (.insufficientShares held)) :=
  claim_C1 ⟨[(1, "TWD")], [], [], [], []⟩ 0 1 "2330.TW" 400 600 20 0 none none "TWD"
    (by decide) (by decide) (by decide) (by decide) (Or.inl (by decide))

/-- C3: every committed trade moves the cash balance of the account's
settlement currency by exactly `-(shares*price + fee + tax)` for a BUY and
`+(shares*price - fee - tax)` for a SELL, through `adjust_cash` (which creates
the cash position at the delta if absent, else adds to it) — stated as: after
the commit, the settlement-currency balance equals the prior balance (0 when
the row did not exist) plus the delta. -/
theorem claim_C3 : ∀ (db db' : DB) (now : ℚ) (a : Nat) (tkr act : String) (actA : Action)
    (s p fee tax : ℚ) (ex_at : Option ℚ) (notes : Option String) (cur : String) (tx : TxnRow),
    parseAction act = some actA →
    aFind db.accounts a = some cur →
    upperStr cur = cur →
    record_transaction db now a tkr act s p fee tax ex_at notes = .ok (tx, db') →
    cFind db'.cash a cur = some ⟨a, cur, cashBalance db a cur + cashDelta actA s p fee tax⟩ := by
  intro db db' now a tkr act actA s p fee tax ex_at notes cur tx hparse hacc hcur hrec
  exact ((record_ok_out hparse hrec).2.2.2.2.2.2.2.2.2 cur hacc hcur).2

/-- Witness for C3: the spec's §8 buy scenario — 100,000 TWD cash, buy 1,000
shares of 2330.TW at 580.5 with fee 20, tax 0; the TWD balance becomes
100,000 − 580,500 − 20 = −480,520. -/
theorem claim_C3_witness :
    ∃ tx db', record_transaction ⟨[(1, "TWD")], [], [⟨1, "TWD", 100000⟩], [], []⟩ 0 1 "2330.TW"
        "BUY" 1000 (1161 / 2) 20 0 none none = .ok (tx, db') ∧
      cFind db'.cash 1 "TWD" = some ⟨1, "TWD", -480520⟩ := by
  have hrec : record_transaction ⟨[(1, "TWD")], [], [⟨1, "TWD", 100000⟩], [], []⟩ 0 1 "2330.TW"
      "BUY" 1000 (1161 / 2) 20 0 none none =
      .ok (⟨1, 1, "2330.TW", .BUY, 1000, 1161 / 2, 20, 0, "TWD", none, 0⟩,
           ⟨[(1, "TWD")], [⟨1, "2330.TW", 1000, 1161 / 2⟩], [⟨1, "TWD", -480520⟩],
            [⟨1, 1, "2330.TW", .BUY, 1000, 1161 / 2, 20, 0, "TWD", none, 0⟩], []⟩) := by
    norm_num [record_transaction, parseAction, update_holding_from_trade, hFind, adjust_cash,
      cFind, cSetBalance, aFind,
      show upperStr "2330.TW" = "2330.TW" from by decide,
      show upperStr "BUY" = "BUY" from by decide,
      show upperStr "TWD" = "TWD" from by decide]
  refine ⟨_, _, hrec, ?_⟩
  have h := claim_C3 ⟨[(1, "TWD")], [], [⟨1, "TWD", 100000⟩], [], []⟩ _ 0 1 "2330.TW" "BUY"
    .BUY 1000 (1161 / 2) 20 0 none none "TWD" _ (by decide) (by decide) (by decide) hrec
  rw [h]
  norm_num [cashBalance, cFind, cashDelta]

/-- C10: `record_transaction` validates only action, shares and price; fee and
tax are accepted unrestricted (negative included) and flow straight into the
cash delta — a BUY with any fee/tax commits and removes
`shares*price + fee + tax` cash, a covered SELL commits and adds
`shares*price - fee - tax`, with the supplied fee/tax copied verbatim into the
transaction row.  The documented preconditions `fee ≥ 0`, `tax ≥ 0` are never
enforced. -/
theorem claim_C10 : ∀ (db : DB) (now : ℚ) (a : Nat) (tkr : String) (s p fee tax : ℚ)
    (ex_at : Option ℚ) (notes : Option String) (cur : String),
    upperStr tkr = tkr →
    aFind db.accounts a = some cur → upperStr cur = cur → 0 < s → 0 < p →
    (∃ tx db', record_transaction db now a tkr "BUY" s p fee tax ex_at notes = .ok (tx, db') ∧
       tx.fee = fee ∧ tx.tax = tax ∧
       cFind db'.cash a cur = some ⟨a, cur, cashBalance db a cur + -(s * p + fee + tax)⟩) ∧
    (∀ ex, hFind db.holdings a tkr = some ex → s ≤ ex.shares →
       ∃ tx db', record_transaction db now a tkr "SELL" s p fee tax ex_at notes = .ok (tx, db') ∧
         tx.fee = fee ∧ tx.tax = tax ∧
         cFind db'.cash a cur = some ⟨a, cur, cashBalance db a cur + (s * p - fee - tax)⟩) := by
  intro db now a tkr s p fee tax ex_at notes cur htkr hacc hcur hs hp
  have hkey : upperStr (upperStr tkr) = tkr := by rw [htkr, htkr]
  constructor
  · have hupd : ∃ db1, update_holding_from_trade db a (upperStr tkr) .BUY s p = .ok db1 := by
      cases hf : hFind db.holdings a (upperStr (upperStr tkr)) with
      | none => exact ⟨_, buy_of_none s p hf⟩
      | some ex => exact ⟨_, buy_of_some s p hf⟩
    obtain ⟨db1, hupd⟩ := hupd
    have hpb : parseAction "BUY" = some .BUY := by decide
    obtain ⟨tx, db', hrec⟩ := record_ok_exists now fee tax ex_at notes hpb hs hp hacc hupd
    have hout := record_ok_out hpb hrec
    exact ⟨tx, db', hrec, hout.2.2.2.1, hout.2.2.2.2.1,
      by simpa [cashDelta] using (hout.2.2.2.2.2.2.2.2.2 cur hacc hcur).2⟩
  · intro ex hex hle
    have hexk : hFind db.holdings a (upperStr (upperStr tkr)) = some ex := by
      rw [hkey]
      exact hex
    have hnotlt : ¬ ex.shares < s := not_lt.mpr hle
    have hupd : ∃ db1, update_holding_from_trade db a (upperStr tkr) .SELL s p = .ok db1 := by
      by_cases heq : ex.shares - s = 0
      · refine ⟨{ db with holdings := hDelete db.holdings a (upperStr (upperStr tkr)) }, ?_⟩
        simp [update_holding_from_trade, hexk, hnotlt, heq]
      · refine ⟨{ db with holdings :=
          (hSetShares db.holdings a (upperStr (upperStr tkr)) (ex.shares - s)) }, ?_⟩
        simp [update_holding_from_trade, hexk, hnotlt, heq]
    obtain ⟨db1, hupd⟩ := hupd
    have hpsl : parseAction "SELL" = some .SELL := by decide
    obtain ⟨tx, db', hrec⟩ := record_ok_exists now fee tax ex_at notes hpsl hs hp hacc hupd
    have hout := record_ok_out hpsl hrec
    exact ⟨tx, db', hrec, hout.2.2.2.1, hout.2.2.2.2.1,
      by simpa [cashDelta] using (hout.2.2.2.2.2.2.2.2.2 cur hacc hcur).2⟩

/-- Witness for C10: a BUY of 1 share at 580.5 with fee −100 and tax 0 commits
and removes only 480.5 cash: the negative fee enters the delta unchecked. -/
theorem claim_C10_witness :
    ∃ tx db', record_transaction ⟨[(1, "TWD")], [], [⟨1, "TWD", 0⟩], [], []⟩ 0 1 "2330.TW"
        "BUY" 1 (1161 / 2) (-100) 0 none none = .ok (tx, db') ∧
      tx.fee = -100 ∧ tx.tax = 0 ∧
      cFind db'.cash 1 "TWD" = some ⟨1, "TWD", -961 / 2⟩ := by
  obtain ⟨tx, db', hrec, hfee, htax, hcash⟩ :=
    (claim_C10 ⟨[(1, "TWD")], [], [⟨1, "TWD", 0⟩], [], []⟩ 0 1 "2330.TW" 1 (1161 / 2) (-100) 0
      none none "TWD" (by decide) (by decide) (by decide) (by decide) (by norm_num)).1
  refine ⟨tx, db', hrec, hfee, htax, ?_⟩
  rw [hcash]
  norm_num [cashBalance, cFind]

theorem parse_actionStr (A : Action) : parseAction (actionStr A) = some A := by
  cases A <;> decide

/-- C5: executing a PENDING planned order whose trade commits returns it as
EXECUTED with the execution time stamped and exactly one new transaction —
recorded at the supplied actual price, with the order's shares/action —
linked back by id; and `execute_order`, `cancel_order` and `update_order`
(with a non-empty patch) against an order whose status is EXECUTED or
CANCELLED all fail with `InvalidState` carrying that status and leave the
store untouched. -/
theorem claim_C5 :
    (∀ (db db1 : DB) (now : ℚ) (oid : Nat) (price fee tax : ℚ) (o : OrderRow) (tx : TxnRow),
        oFind db.orders oid = some o → o.status = .PENDING →
        record_transaction db now o.account_id o.ticker (actionStr o.action) o.shares price fee
            tax none (orderNote oid) = .ok (tx, db1) →
        ∃ o', execute_order db now oid price fee tax = .ok (o', execute_finish db1 oid tx.id now) ∧
          o'.status = .EXECUTED ∧ o'.executed_at = some now ∧
          o'.linked_transaction_id = some tx.id ∧ o'.id = oid ∧
          (execute_finish db1 oid tx.id now).transactions = db.transactions ++ [tx] ∧
          tx.price = price ∧ tx.shares = o.shares ∧ tx.action = o.action) ∧
    (∀ (db : DB) (now : ℚ) (oid : Nat) (price fee tax : ℚ) (o : OrderRow) (p : OrderPatch),
        oFind db.orders oid = some o →
        (o.status = .EXECUTED ∨ o.status = .CANCELLED) →
        p.isEmpty = false →
        execute_order_run db now oid price fee tax = (db, some (.invalidState o.status)) ∧
        cancel_order_run db oid = (db, some (.invalidState o.status)) ∧
        update_order_run db oid p = (db, some (.invalidState o.status))) := by
  constructor
  · intro db db1 now oid price fee tax o tx ho hpend hrec
    have hchk : execute_check db oid = .ok o := by
      simp [execute_check, ho, hpend]
    have hout := record_ok_out (parse_actionStr o.action) hrec
    have hor : db1.orders = db.orders := hout.2.2.2.2.2.2.2.1
    have ho1 : oFind db1.orders oid = some o := by
      rw [hor]
      exact ho
    have hfin := oFind_oSetExecuted_self ho1 tx.id now
    refine ⟨{ o with status := .EXECUTED, executed_at := some now, linked_transaction_id := some tx.id },
            ?_, rfl, rfl, rfl, ?_, ?_, hout.2.1, hout.2.2.1, hout.2.2.2.2.2.1⟩
    · simp only [execute_order, hchk, hrec, execute_finish, hfin]
    · have hid : o.id = oid := oFind_eq_key ho
      exact hid
    · simpa [execute_finish] using hout.1
  · intro db now oid price fee tax o p ho hterm hpne
    have hnp : o.status ≠ .PENDING := by
      rcases hterm with h | h <;> simp [h]
    refine ⟨?_, ?_, ?_⟩
    · simp [execute_order_run, execute_order, execute_check, ho, hnp]
    · simp [cancel_order_run, cancel_order, ho, hnp]
    · simp [update_order_run, update_order, hpne, ho, hnp]

/-- Witness for C5: executing the single PENDING order of a one-order store
commits a transaction at the supplied price 5 and marks the order EXECUTED
linked to transaction 1; executing, cancelling or updating an EXECUTED order
fails with `InvalidState` and changes nothing. -/
theorem claim_C5_witness :
    (∃ o' db2, execute_order ⟨[(1, "TWD")], [], [], [],
        [⟨1, 1, "AAPL", .BUY, 2, none, none, "NORMAL", .PENDING, none, none⟩]⟩ 0 1 5 0 0 =
        .ok (o', db2) ∧ o'.status = .EXECUTED ∧ o'.executed_at = some 0 ∧
        o'.linked_transaction_id = some 1 ∧ db2.transactions.length = 1) ∧
    (execute_order_run ⟨[(1, "TWD")], [], [], [],
        [⟨1, 1, "AAPL", .BUY, 2, none, none, "NORMAL", .EXECUTED, some 0, some 1⟩]⟩ 0 1 5 0 0 =
      (⟨[(1, "TWD")], [], [], [],
        [⟨1, 1, "AAPL", .BUY, 2, none, none, "NORMAL", .EXECUTED, some 0, some 1⟩]⟩,
       some (.invalidState .EXECUTED)) ∧
     cancel_order_run ⟨[(1, "TWD")], [], [], [],
        [⟨1, 1, "AAPL", .BUY, 2, none, none, "NORMAL", .EXECUTED, some 0, some 1⟩]⟩ 1 =
      (⟨[(1, "TWD")], [], [], [],
        [⟨1, 1, "AAPL", .BUY, 2, none, none, "NORMAL", .EXECUTED, some 0, some 1⟩]⟩,
       some (.invalidState .EXECUTED))) := by
  constructor
  · have hrec : record_transaction ⟨[(1, "TWD")], [], [], [],
        [⟨1, 1, "AAPL", .BUY, 2, none, none, "NORMAL", .PENDING, none, none⟩]⟩ 0 1 "AAPL"
        "BUY" 2 5 0 0 none (orderNote 1) =
        .ok (⟨1, 1, "AAPL", .BUY, 2, 5, 0, 0, "TWD", orderNote 1, 0⟩,
             ⟨[(1, "TWD")], [⟨1, "AAPL", 2, 5⟩], [⟨1, "TWD", -10⟩],
              [⟨1, 1, "AAPL", .BUY, 2, 5, 0, 0, "TWD", orderNote 1, 0⟩],
              [⟨1, 1, "AAPL", .BUY, 2, none, none, "NORMAL", .PENDING, none, none⟩]⟩) := by
      norm_num [record_transaction, parseAction, update_holding_from_trade, hFind, adjust_cash,
        cFind, cSetBalance, aFind,
        show upperStr "AAPL" = "AAPL" from by decide,
        show upperStr "BUY" = "BUY" from by decide,
        show upperStr "TWD" = "TWD" from by decide]
    obtain ⟨o', hexec, hst, hat, hlink, _, htr, _⟩ := claim_C5.1
      ⟨[(1, "TWD")], [], [], [],
        [⟨1, 1, "AAPL", .BUY, 2, none, none, "NORMAL", .PENDING, none, none⟩]⟩
      _ 0 1 5 0 0 ⟨1, 1, "AAPL", .BUY, 2, none, none, "NORMAL", .PENDING, none, none⟩ _
      (by decide) rfl hrec
    refine ⟨o', _, hexec, hst, hat, hlink, ?_⟩
    rw [htr]
    simp
  · have h := (claim_C5.2 ⟨[(1, "TWD")], [], [], [],
      [⟨1, 1, "AAPL", .BUY, 2, none, none, "NORMAL", .EXECUTED, some 0, some 1⟩]⟩ 0 1 5 0 0
      ⟨1, 1, "AAPL", .BUY, 2, none, none, "NORMAL", .EXECUTED, some 0, some 1⟩
      ⟨none, none, none, some 6, none, none⟩ (by decide) (Or.inl rfl) (by decide))
    exact ⟨h.1, h.2.1⟩

/-- C6 (amended): the terminal-state write of `execute_order` is an
*unconditional* `UPDATE ... WHERE id = ?` in its own connection — it re-checks
nothing at write time, overwriting whatever status the order has by then with
EXECUTED; consequently an execute call whose PENDING check read an earlier
state completes successfully regardless of the order's current status, so two
interleaved executes can both succeed. -/
theorem claim_C6 :
    (∀ (db : DB) (oid txid : Nat) (now : ℚ) (o : OrderRow),
        oFind db.orders oid = some o →
        oFind (execute_finish db oid txid now).orders oid =
          some { o with status := .EXECUTED, executed_at := some now,
                        linked_transaction_id := some txid }) ∧
    (∀ (db db' db1 : DB) (now : ℚ) (oid : Nat) (price fee tax : ℚ) (o o2 : OrderRow)
        (tx : TxnRow),
        execute_check db oid = .ok o →
        oFind db'.orders oid = some o2 →
        record_transaction db' now o.account_id o.ticker (actionStr o.action) o.shares price fee
            tax none (orderNote oid) = .ok (tx, db1) →
        execute_interleaved db db' now oid price fee tax =
          .ok ({ o2 with status := .EXECUTED, executed_at := some now,
                         linked_transaction_id := some tx.id },
               execute_finish db1 oid tx.id now)) := by
  constructor
  · intro db oid txid now o ho
    exact oFind_oSetExecuted_self ho txid now
  · intro db db' db1 now oid price fee tax o o2 tx hchk ho2 hrec
    have hout := record_ok_out (parse_actionStr o.action) hrec
    have hor : db1.orders = db'.orders := hout.2.2.2.2.2.2.2.1
    have ho1 : oFind db1.orders oid = some o2 := by
      rw [hor]
      exact ho2
    have hfin := oFind_oSetExecuted_self ho1 tx.id now
    simp only [execute_interleaved, hchk, hrec, execute_finish, hfin]

/-- Counterexample for C6: from a store with one PENDING order, two
`execute_order` calls whose status checks both read the initial state (the
second check runs before the first call's terminal write) BOTH complete
successfully, leaving two committed transactions — and the terminal write
itself, applied to an order that is already CANCELLED, still overwrites it to
EXECUTED, showing the `UPDATE` carries no `status = 'PENDING'` guard. -/
theorem claim_C6_counterexample :
    (execute_interleaved raceDb raceDb 0 1 10 0 0).isOk = true ∧
    (execute_interleaved raceDb raceDbAfter1 0 1 10 0 0).isOk = true ∧
    raceDbAfter2.transactions.length = 2 ∧
    oFind (execute_finish ⟨[(1, "TWD")], [], [], [],
        [⟨1, 1, "2330.TW", .BUY, 1, none, none, "NORMAL", .CANCELLED, none, none⟩]⟩ 1 7 0).orders
        1 =
      some ⟨1, 1, "2330.TW", .BUY, 1, none, none, "NORMAL", .EXECUTED, some 0, some 7⟩ := by
  refine ⟨?_, ?_, ?_, by decide⟩ <;>
    norm_num [execute_interleaved, execute_check, raceDb, raceDbAfter1, raceDbAfter2, afterExec,
      oFind, record_transaction, parseAction, actionStr, aFind, update_holding_from_trade,
      hFind, hSetBoth, adjust_cash, cFind, cSetBalance, execute_finish, oSetExecuted, orderNote,
      Except.isOk, Except.toBool,
      show upperStr "BUY" = "BUY" from by decide,
      show upperStr "2330.TW" = "2330.TW" from by decide,
      show upperStr "TWD" = "TWD" from by decide]

theorem pFind_eq_key {l : List PriceRow} {t : String} {r : PriceRow}
    (hf : pFind l t = some r) : r.ticker = t := by
  induction l with
  | nil => simp [pFind] at hf
  | cons x rest ih =>
    by_cases hx : x.ticker = t
    · simp [pFind, hx] at hf
      subst hf
      exact hx
    · simp [pFind, hx] at hf
      exact ih hf

theorem pFind_pSet_self {l : List PriceRow} {t : String} {r : PriceRow}
    (hf : pFind l t = some r) (p : ℚ) (c : String) (now : ℚ) :
    pFind (pSet l t p c now) t = some ⟨t, p, c, now⟩ := by
  induction l with
  | nil => simp [pFind] at hf
  | cons x rest ih =>
    by_cases hx : x.ticker = t
    · subst hx
      simp [pFind, pSet]
    · simp [pFind, hx] at hf
      simp [pSet, pFind, hx, if_neg hx]
      exact ih hf

theorem pFind_pSet_ne {l : List PriceRow} {t t' : String} (hne : t' ≠ t)
    (p : ℚ) (c : String) (now : ℚ) :
    pFind (pSet l t p c now) t' = pFind l t' := by
  induction l with
  | nil => simp [pSet]
  | cons x rest ih =>
    by_cases hx : x.ticker = t
    · subst hx
      simp [pSet, pFind, Ne.symm hne, ih]
    · simp [pSet, pFind, hx, ih]

theorem pFind_append_of_none {l : List PriceRow} {t : String}
    (hf : pFind l t = none) (r : PriceRow) :
    pFind (l ++ [r]) t = if r.ticker = t then some r else none := by
  induction l with
  | nil => simp [pFind]
  | cons x rest ih =>
    by_cases hx : x.ticker = t
    · simp [pFind, hx] at hf
    · simp [pFind, hx] at hf ⊢
      exact ih hf

theorem pFind_append_ne {l : List PriceRow} {t' : String} (r : PriceRow) (hne : r.ticker ≠ t') :
    pFind (l ++ [r]) t' = pFind l t' := by
  induction l with
  | nil => simp [pFind, hne]
  | cons x rest ih =>
    by_cases hx : x.ticker = t'
    · simp [pFind, hx]
    · simp [pFind, hx, ih]

theorem pSet_length (l : List PriceRow) (t : String) (p : ℚ) (c : String) (now : ℚ) :
    (pSet l t p c now).length = l.length := by
  induction l with
  | nil => simp [pSet]
  | cons x rest ih => simp [pSet, ih]

theorem rFind_rSet_self {l : List RateRow} {fc tc : String} {r : RateRow}
    (hf : rFind l fc tc = some r) (v now : ℚ) :
    rFind (rSet l fc tc v now) fc tc = some ⟨fc, tc, v, now⟩ := by
  induction l with
  | nil => simp [rFind] at hf
  | cons x rest ih =>
    by_cases hx : x.from_currency = fc ∧ x.to_currency = tc
    · obtain ⟨h1, h2⟩ := hx
      subst h1
      subst h2
      simp [rFind, rSet]
    · simp [rFind, hx] at hf
      simp [rSet, rFind, hx, if_neg hx]
      exact ih hf

theorem rFind_append_of_none {l : List RateRow} {fc tc : String}
    (hf : rFind l fc tc = none) (r : RateRow) :
    rFind (l ++ [r]) fc tc =
      if r.from_currency = fc ∧ r.to_currency = tc then some r else none := by
  induction l with
  | nil => simp [rFind]
  | cons x rest ih =>
    by_cases hx : x.from_currency = fc ∧ x.to_currency = tc
    · simp [rFind, hx] at hf
    · simp [rFind, hx] at hf ⊢
      exact ih hf

/-- C8: price lookups serve the cached row, unchanged and without consulting
the source, whenever `now - fetched_at ≤ 15` minutes, and otherwise (stale row
or no row) fetch fresh, upsert into the single row for the ticker (in place
when the row exists — same table length, other keys untouched — appended
otherwise) and return it tagged not-cached; FX lookups behave identically with
the 60-minute TTL (for distinct currencies — same-currency pairs short-circuit
to 1.0 before the cache).  In particular a row fetched at `T` is served from
cache at `T + TTL - 1` and a lookup at `T + TTL + 1` sees an expired cache and
refetches. -/
theorem claim_C8 :
    (∀ (cache : List PriceRow) (source : String → Option (ℚ × String)) (now : ℚ) (t : String)
        (row : PriceRow), pFind cache (upperStr t) = some row →
        now - row.fetched_at ≤ PRICE_CACHE_TTL_MINUTES →
        fetch_price cache source now t = .ok ((row.price, row.currency, true), cache)) ∧
    (∀ (cache : List PriceRow) (source : String → Option (ℚ × String)) (now : ℚ) (t : String)
        (p : ℚ) (c : String), _get_cached_price cache now (upperStr t) = none →
        source (upperStr t) = some (p, c) →
        fetch_price cache source now t =
          .ok ((p, c, false), _update_price_cache cache (upperStr t) p c now) ∧
        pFind (_update_price_cache cache (upperStr t) p c now) (upperStr t) =
          some ⟨upperStr t, p, c, now⟩ ∧
        (∀ t', t' ≠ upperStr t →
          pFind (_update_price_cache cache (upperStr t) p c now) t' = pFind cache t') ∧
        (∀ row, pFind cache (upperStr t) = some row →
          (_update_price_cache cache (upperStr t) p c now).length = cache.length)) ∧
    (∀ (cache : List PriceRow) (now : ℚ) (t : String) (row : PriceRow),
        pFind cache (upperStr t) = some row →
        PRICE_CACHE_TTL_MINUTES < now - row.fetched_at →
        _get_cached_price cache now (upperStr t) = none) ∧
    (∀ (cache : List RateRow) (source : String → String → Option ℚ) (now : ℚ)
        (fc tc : String) (row : RateRow), upperStr fc ≠ upperStr tc →
        rFind cache (upperStr fc) (upperStr tc) = some row →
        now - row.fetched_at ≤ FX_CACHE_TTL_MINUTES →
        fetch_rate cache source now fc tc = .ok (row.rate, cache)) ∧
    (∀ (cache : List RateRow) (source : String → String → Option ℚ) (now : ℚ)
        (fc tc : String) (v : ℚ), upperStr fc ≠ upperStr tc →
        _get_cached_rate cache now (upperStr fc) (upperStr tc) = none →
        source (upperStr fc) (upperStr tc) = some v →
        fetch_rate cache source now fc tc =
          .ok (v, _update_rate_cache cache (upperStr fc) (upperStr tc) v now) ∧
        rFind (_update_rate_cache cache (upperStr fc) (upperStr tc) v now) (upperStr fc)
          (upperStr tc) = some ⟨upperStr fc, upperStr tc, v, now⟩) ∧
    (∀ (cache : List RateRow) (now : ℚ) (fc tc : String) (row : RateRow),
        rFind cache (upperStr fc) (upperStr tc) = some row →
        FX_CACHE_TTL_MINUTES < now - row.fetched_at →
        _get_cached_rate cache now (upperStr fc) (upperStr tc) = none) ∧
    (∀ (cache : List PriceRow) (source : String → Option (ℚ × String)) (t : String)
        (row : PriceRow), pFind cache (upperStr t) = some row →
        fetch_price cache source (row.fetched_at + PRICE_CACHE_TTL_MINUTES - 1) t =
          .ok ((row.price, row.currency, true), cache) ∧
        _get_cached_price cache (row.fetched_at + PRICE_CACHE_TTL_MINUTES + 1) (upperStr t) =
          none) := by
  have hp1 : ∀ (cache : List PriceRow) (source : String → Option (ℚ × String)) (now : ℚ)
      (t : String) (row : PriceRow), pFind cache (upperStr t) = some row →
      now - row.fetched_at ≤ PRICE_CACHE_TTL_MINUTES →
      fetch_price cache source now t = .ok ((row.price, row.currency, true), cache) := by
    intro cache source now t row hf hfresh
    have hnotlt : ¬ PRICE_CACHE_TTL_MINUTES < now - row.fetched_at := not_lt.mpr hfresh
    simp [fetch_price, _get_cached_price, hf, hnotlt]
  have hp3 : ∀ (cache : List PriceRow) (now : ℚ) (t : String) (row : PriceRow),
      pFind cache (upperStr t) = some row →
      PRICE_CACHE_TTL_MINUTES < now - row.fetched_at →
      _get_cached_price cache now (upperStr t) = none := by
    intro cache now t row hf hstale
    simp [_get_cached_price, hf, hstale]
  refine ⟨hp1, ?_, hp3, ?_, ?_, ?_, ?_⟩
  · intro cache source now t p c hmiss hsrc
    refine ⟨by simp [fetch_price, hmiss, hsrc], ?_, ?_, ?_⟩
    · cases hf : pFind cache (upperStr t) with
      | none =>
        simp only [_update_price_cache, hf]
        rw [pFind_append_of_none hf]
        simp
      | some row =>
        simp only [_update_price_cache, hf]
        exact pFind_pSet_self hf p c now
    · intro t' hne
      cases hf : pFind cache (upperStr t) with
      | none =>
        simp only [_update_price_cache, hf]
        exact pFind_append_ne _ (by simpa using Ne.symm hne)
      | some row =>
        simp only [_update_price_cache, hf]
        exact pFind_pSet_ne hne p c now
    · intro row hf
      simp only [_update_price_cache, hf]
      exact pSet_length cache (upperStr t) p c now
  · intro cache source now fc tc row hne hf hfresh
    have hnotlt : ¬ FX_CACHE_TTL_MINUTES < now - row.fetched_at := not_lt.mpr hfresh
    simp [fetch_rate, _get_cached_rate, hne, hf, hnotlt]
  · intro cache source now fc tc v hne hmiss hsrc
    refine ⟨by simp [fetch_rate, hne, hmiss, hsrc], ?_⟩
    cases hf : rFind cache (upperStr fc) (upperStr tc) with
    | none =>
      simp only [_update_rate_cache, hf]
      rw [rFind_append_of_none hf]
      simp
    | some row =>
      simp only [_update_rate_cache, hf]
      exact rFind_rSet_self hf v now
  · intro cache now fc tc row hf hstale
    simp [_get_cached_rate, hf, hstale]
  · intro cache source t row hf
    constructor
    · exact hp1 cache source (row.fetched_at + PRICE_CACHE_TTL_MINUTES - 1) t row hf (by linarith)
    · exact hp3 cache (row.fetched_at + PRICE_CACHE_TTL_MINUTES + 1) t row hf (by linarith)

/-- Witness for C8: an AAPL price row fetched at minute 0 is served from cache
at minute 14 (TTL − 1) with the cache untouched, and at minute 16 (TTL + 1)
the fetch consults the source and overwrites the single AAPL row in place; the
USD→TWD rate behaves the same around its 60-minute TTL. -/
theorem claim_C8_witness :
    fetch_price [⟨"AAPL", 100, "USD", 0⟩] (fun _ => some (101, "USD")) 14 "AAPL" =
      .ok ((100, "USD", true), [⟨"AAPL", 100, "USD", 0⟩]) ∧
    fetch_price [⟨"AAPL", 100, "USD", 0⟩] (fun _ => some (101, "USD")) 16 "AAPL" =
      .ok ((101, "USD", false), [⟨"AAPL", 101, "USD", 16⟩]) ∧
    fetch_rate [⟨"USD", "TWD", 31, 0⟩] (fun _ _ => some 32) 59 "USD" "TWD" =
      .ok (31, [⟨"USD", "TWD", 31, 0⟩]) ∧
    fetch_rate [⟨"USD", "TWD", 31, 0⟩] (fun _ _ => some 32) 61 "USD" "TWD" =
      .ok (32, [⟨"USD", "TWD", 32, 61⟩]) := by
  have hu : upperStr "AAPL" = "AAPL" := by decide
  have hu2 : upperStr "USD" = "USD" := by decide
  have hu3 : upperStr "TWD" = "TWD" := by decide
  refine ⟨?_, ?_, ?_, ?_⟩
  · exact claim_C8.1 _ _ 14 "AAPL" ⟨"AAPL", 100, "USD", 0⟩ (by rw [hu]; decide)
      (by norm_num [PRICE_CACHE_TTL_MINUTES])
  · have h := (claim_C8.2.1 [⟨"AAPL", 100, "USD", 0⟩] (fun _ => some (101, "USD")) 16 "AAPL"
      101 "USD" (by norm_num [_get_cached_price, pFind, PRICE_CACHE_TTL_MINUTES, hu])
      (by rfl)).1
    rw [h]
    norm_num [_update_price_cache, pFind, pSet, hu]
  · exact claim_C8.2.2.2.1 _ _ 59 "USD" "TWD" ⟨"USD", "TWD", 31, 0⟩ (by rw [hu2, hu3]; decide)
      (by rw [hu2, hu3]; decide) (by norm_num [FX_CACHE_TTL_MINUTES])
  · have h := (claim_C8.2.2.2.2.1 [⟨"USD", "TWD", 31, 0⟩] (fun _ _ => some 32) 61 "USD" "TWD"
      32 (by rw [hu2, hu3]; decide)
      (by norm_num [_get_cached_rate, rFind, FX_CACHE_TTL_MINUTES, hu2, hu3]) (by rfl)).1
    rw [h]
    norm_num [_update_rate_cache, rFind, rSet, hu2, hu3]

/-- Witness for C6 (amended): the terminal write applied to an order that is
already CANCELLED still stamps it EXECUTED, linked to transaction 3 — no
status guard fires. -/
theorem claim_C6_witness :
    oFind (execute_finish ⟨[(1, "TWD")], [], [], [],
        [⟨1, 1, "AAPL", .BUY, 1, none, none, "NORMAL", .CANCELLED, none, none⟩]⟩ 1 3 2).orders
        1 =
      some ⟨1, 1, "AAPL", .BUY, 1, none, none, "NORMAL", .EXECUTED, some 2, some 3⟩ :=
  claim_C6.1 ⟨[(1, "TWD")], [], [], [],
      [⟨1, 1, "AAPL", .BUY, 1, none, none, "NORMAL", .CANCELLED, none, none⟩]⟩ 1 3 2
    ⟨1, 1, "AAPL", .BUY, 1, none, none, "NORMAL", .CANCELLED, none, none⟩ (by decide)

theorem hFind_mem {l : List HoldingRow} {a : Nat} {t : String} {h : HoldingRow}
    (hf : hFind l a t = some h) : h ∈ l := by
  induction l with
  | nil => simp [hFind] at hf
  | cons x rest ih =>
    by_cases hx : x.account_id = a ∧ x.ticker = t
    · simp [hFind, hx] at hf
      simp [hf.symm]
    · simp [hFind, hx] at hf
      simp [ih hf]

theorem syncStep_pos {existing : List HoldingRow} {a : Nat}
    {acc : List HoldingRow × Nat × Nat} {item : SyncItem}
    (h : ∀ r ∈ acc.1, 0 < r.shares) :
    ∀ r ∈ (syncStep existing a acc item).1, 0 < r.shares := by
  by_cases hskip : item.shares ≤ 0
  · simp only [syncStep, if_pos hskip]
    exact h
  · cases htf : tickFind existing (upperStr item.ticker) with
    | some old =>
      by_cases hch : old.shares ≠ item.shares ∨ 1 / 100 < |old.avg_cost - item.avg_cost|
      · simp only [syncStep, if_neg hskip, htf, if_pos hch]
        intro r hr
        obtain ⟨y, hy, hry⟩ := mem_hSetBoth hr
        rcases hry with hry | hry
        · rw [hry]
          exact h y hy
        · rw [hry]
          simpa using lt_of_not_le hskip
      · simp only [syncStep, if_neg hskip, htf, if_neg hch]
        exact h
    | none =>
      simp only [syncStep, if_neg hskip, htf]
      intro r hr
      rcases List.mem_append.mp hr with hr | hr
      · exact h r hr
      · simp at hr
        subst hr
        simpa using lt_of_not_le hskip

theorem syncLoop_pos (existing : List HoldingRow) (a : Nat) :
    ∀ (items : List SyncItem) (acc : List HoldingRow × Nat × Nat),
      (∀ r ∈ acc.1, 0 < r.shares) →
      ∀ r ∈ (items.foldl (syncStep existing a) acc).1, 0 < r.shares
  | [], acc, h => by simpa using h
  | item :: rest, acc, h => by
      simp only [List.foldl_cons]
      exact syncLoop_pos existing a rest _ (syncStep_pos h)

theorem syncRemoveStep_pos {bt : List String} {a : Nat} {acc : List HoldingRow × Nat}
    {x : HoldingRow} (h : ∀ r ∈ acc.1, 0 < r.shares) :
    ∀ r ∈ (syncRemoveStep bt a acc x).1, 0 < r.shares := by
  unfold syncRemoveStep
  split
  · exact h
  · intro r hr
    exact h r (mem_hDelete hr).1

theorem syncRemoveLoop_pos (bt : List String) (a : Nat) :
    ∀ (ex : List HoldingRow) (acc : List HoldingRow × Nat),
      (∀ r ∈ acc.1, 0 < r.shares) →
      ∀ r ∈ (ex.foldl (syncRemoveStep bt a) acc).1, 0 < r.shares
  | [], acc, h => by simpa using h
  | x :: rest, acc, h => by
      simp only [List.foldl_cons]
      exact syncRemoveLoop_pos bt a rest _ (syncRemoveStep_pos h)

/-- C7 (amended): the trade path (`update_holding_from_trade` under its
caller's `shares > 0` validation) and the reconciliation path
(`sync_broker_holdings`) preserve strict positivity of every holding row, and
a trade sell that lands on exactly 0 deletes the row; `add_holding` enforces
neither — fed a non-positive share count it retains a zero-share row (writing
`avg_cost = 0`) or inserts a negative one. -/
theorem claim_C7 :
    (∀ (db db' : DB) (a : Nat) (t : String) (act : Action) (s p : ℚ),
        0 < s →
        (∀ r ∈ db.holdings, 0 < r.shares) →
        update_holding_from_trade db a t act s p = .ok db' →
        ∀ r ∈ db'.holdings, 0 < r.shares) ∧
    (∀ (db db' : DB) (a : Nat) (items : List SyncItem) (cnt : Nat × Nat × Nat),
        (∀ r ∈ db.holdings, 0 < r.shares) →
        sync_broker_holdings db a items = .ok (db', cnt) →
        ∀ r ∈ db'.holdings, 0 < r.shares) ∧
    (∀ (db : DB) (a : Nat) (t : String) (ex : HoldingRow) (s p : ℚ),
        hFind db.holdings a (upperStr t) = some ex → s = ex.shares → 0 < s →
        ∃ db', update_holding_from_trade db a t .SELL s p = .ok db' ∧
          hFind db'.holdings a (upperStr t) = none) := by
  refine ⟨?_, ?_, ?_⟩
  · intro db db' a t act s p hs hpos hupd
    cases act with
    | BUY =>
      cases hf : hFind db.holdings a (upperStr t) with
      | none =>
        rw [buy_of_none s p hf] at hupd
        simp at hupd
        subst hupd
        intro r hr
        rcases List.mem_append.mp hr with hr | hr
        · exact hpos r hr
        · simp at hr
          subst hr
          simpa using hs
      | some ex =>
        rw [buy_of_some s p hf] at hupd
        simp at hupd
        subst hupd
        intro r hr
        obtain ⟨y, hy, hry⟩ := mem_hSetBoth hr
        rcases hry with hry | hry
        · rw [hry]
          exact hpos y hy
        · have hex := hpos ex (hFind_mem hf)
          rw [hry]
          simpa using by linarith
    | SELL =>
      cases hf : hFind db.holdings a (upperStr t) with
      | none => simp [update_holding_from_trade, hf] at hupd
      | some ex =>
        simp only [update_holding_from_trade, hf] at hupd
        split at hupd
        · simp at hupd
        · next hge =>
          split at hupd
          · next hzero =>
            simp at hupd
            subst hupd
            intro r hr
            exact hpos r (mem_hDelete hr).1
          · next hnz =>
            simp at hupd
            subst hupd
            intro r hr
            obtain ⟨y, hy, hry⟩ := mem_hSetShares hr
            rcases hry with hry | hry
            · rw [hry]
              exact hpos y hy
            · have h1 : s ≤ ex.shares := le_of_not_lt hge
              have h2 : ex.shares - s ≠ 0 := hnz
              have h3 : 0 < ex.shares - s := lt_of_le_of_ne (by linarith) (Ne.symm h2)
              rw [hry]
              simpa using h3
  · intro db db' a items cnt hpos hsync
    cases hacc : aFind db.accounts a with
    | none => simp [sync_broker_holdings, hacc] at hsync
    | some cur =>
      simp only [sync_broker_holdings, hacc] at hsync
      simp at hsync
      obtain ⟨hdb, _⟩ := hsync
      subst hdb
      intro r hr
      refine syncRemoveLoop_pos _ a (list_holdings db a) _ ?_ r hr
      exact syncLoop_pos (list_holdings db a) a items (db.holdings, 0, 0) hpos
  · intro db a t ex s p hf hall hs
    have hnotlt : ¬ ex.shares < s := by
      rw [hall]
      exact lt_irrefl _
    have hzero : ex.shares - s = 0 := by
      rw [hall]
      ring
    refine ⟨{ db with holdings := hDelete db.holdings a (upperStr t) }, ?_, ?_⟩
    · simp [update_holding_from_trade, hf, hnotlt, hzero]
    · exact hFind_hDelete_self _ _ _

/-- Counterexample for C7: `add_holding` merging −5 shares into a 5-share TSM
holding keeps the row at exactly 0 shares (cost overwritten to 0) instead of
deleting it, and `add_holding` of −3 shares into an empty account inserts a
negative-share row — the claimed invariant fails on the manual add/merge
path. -/
theorem claim_C7_counterexample :
    (add_holding ⟨[], [⟨1, "TSM", 5, 10⟩], [], [], []⟩ 1 "TSM" (-5) 0).2 =
      some ⟨1, "TSM", 0, 0⟩ ∧
    hFind (add_holding ⟨[], [⟨1, "TSM", 5, 10⟩], [], [], []⟩ 1 "TSM" (-5) 0).1.holdings 1
      "TSM" = some ⟨1, "TSM", 0, 0⟩ ∧
    (add_holding ⟨[], [], [], [], []⟩ 1 "TSM" (-3) 10).2 = some ⟨1, "TSM", -3, 10⟩ := by
  refine ⟨?_, ?_, ?_⟩ <;>
    norm_num [add_holding, hFind, hSetBoth, show upperStr "TSM" = "TSM" from by decide]

/-- Witness for C7 (amended): selling the full 5-share TSM position through
the trade path removes the row entirely. -/
theorem claim_C7_witness :
    ∃ db', update_holding_from_trade ⟨[], [⟨1, "TSM", 5, 10⟩], [], [], []⟩ 1 "TSM" .SELL 5 0 =
        .ok db' ∧ hFind db'.holdings 1 (upperStr "TSM") = none :=
  claim_C7.2.2 ⟨[], [⟨1, "TSM", 5, 10⟩], [], [], []⟩ 1 "TSM" ⟨1, "TSM", 5, 10⟩ 5 0
    (by rw [show upperStr "TSM" = "TSM" from by decide]; decide) rfl (by norm_num)

/-! Lemmas about `posFind` — the per-ticker view `sync_broker_holdings` takes
of an account's positive-share holdings — under the table operations. -/

theorem posFind_cons (x : HoldingRow) (l : List HoldingRow) (a : Nat) (t : String) :
    posFind (x :: l) a t =
      if x.account_id = a ∧ 0 < x.shares then
        (if x.ticker = t then some x else posFind l a t)
      else posFind l a t := by
  by_cases h1 : x.account_id = a ∧ 0 < x.shares
  · by_cases h2 : x.ticker = t <;> simp [posFind, List.filter_cons, h1, h2, tickFind]
  · simp [posFind, List.filter_cons, h1]

theorem posFind_some {l : List HoldingRow} {a : Nat} {t : String} {r : HoldingRow}
    (hf : posFind l a t = some r) :
    r ∈ l ∧ r.account_id = a ∧ 0 < r.shares ∧ r.ticker = t := by
  induction l with
  | nil => simp [posFind, tickFind] at hf
  | cons x rest ih =>
    rw [posFind_cons] at hf
    by_cases h1 : x.account_id = a ∧ 0 < x.shares
    · rw [if_pos h1] at hf
      by_cases h2 : x.ticker = t
      · rw [if_pos h2] at hf
        obtain rfl := Option.some_inj.mp hf.symm
        exact ⟨by simp, h1.1, h1.2, h2⟩
      · rw [if_neg h2] at hf
        obtain ⟨hm, h⟩ := ih hf
        exact ⟨by simp [hm], h⟩
    · rw [if_neg h1] at hf
      obtain ⟨hm, h⟩ := ih hf
      exact ⟨by simp [hm], h⟩

theorem posFind_hSetBoth_self {l : List HoldingRow} {a : Nat} {t : String} {r : HoldingRow}
    (hf : posFind l a t = some r) {s : ℚ} (hs : 0 < s) (c : ℚ) :
    posFind (hSetBoth l a t s c) a t = some ⟨a, t, s, c⟩ := by
  induction l with
  | nil => simp [posFind, tickFind] at hf
  | cons x rest ih =>
    by_cases hx : x.account_id = a ∧ x.ticker = t
    · obtain ⟨hx1, hx2⟩ := hx
      simp only [hSetBoth, if_pos (And.intro hx1 hx2)]
      rw [posFind_cons]
      simp only [hx1, hs]
      simp [hx2]
    · simp only [hSetBoth, if_neg hx]
      rw [posFind_cons] at hf
      rw [posFind_cons]
      by_cases h1 : x.account_id = a ∧ 0 < x.shares
      · rw [if_pos h1] at hf ⊢
        have h2 : x.ticker ≠ t := by
          intro h
          exact hx ⟨h1.1, h⟩
        rw [if_neg h2] at hf ⊢
        exact ih hf
      · rw [if_neg h1] at hf ⊢
        exact ih hf

theorem posFind_hSetBoth_ne {l : List HoldingRow} {a : Nat} {t t' : String} (hne : t' ≠ t)
    (s c : ℚ) : posFind (hSetBoth l a t s c) a t' = posFind l a t' := by
  induction l with
  | nil => simp [hSetBoth]
  | cons x rest ih =>
    by_cases hx : x.account_id = a ∧ x.ticker = t
    · simp only [hSetBoth, if_pos hx]
      rw [posFind_cons, posFind_cons]
      by_cases h1 : 0 < s
      · rw [if_pos (by simpa using ⟨hx.1, h1⟩)]
        rw [if_neg (by simpa using Ne.symm (hx.2 ▸ hne))]
        by_cases h0 : x.account_id = a ∧ 0 < x.shares
        · rw [if_pos h0, if_neg (by rw [hx.2]; exact Ne.symm hne)]
          exact ih
        · rw [if_neg h0]
          exact ih
      · rw [if_neg (by simp [h1])]
        by_cases h0 : x.account_id = a ∧ 0 < x.shares
        · rw [if_pos h0, if_neg (by rw [hx.2]; exact Ne.symm hne)]
          exact ih
        · rw [if_neg h0]
          exact ih
    · simp only [hSetBoth, if_neg hx]
      rw [posFind_cons, posFind_cons]
      split
      · split
        · rfl
        · exact ih
      · exact ih

theorem posFind_append_self {l : List HoldingRow} {a : Nat} {t : String}
    (hf : posFind l a t = none) {r : HoldingRow}
    (hr : r.account_id = a ∧ 0 < r.shares ∧ r.ticker = t) :
    posFind (l ++ [r]) a t = some r := by
  induction l with
  | nil =>
    rw [List.nil_append, posFind_cons]
    simp [hr.1, hr.2.1, hr.2.2]
  | cons x rest ih =>
    rw [posFind_cons] at hf
    rw [List.cons_append, posFind_cons]
    by_cases h1 : x.account_id = a ∧ 0 < x.shares
    · rw [if_pos h1] at hf ⊢
      by_cases h2 : x.ticker = t
      · rw [if_pos h2] at hf
        simp at hf
      · rw [if_neg h2] at hf ⊢
        exact ih hf
    · rw [if_neg h1] at hf ⊢
      exact ih hf

theorem posFind_append_ne {l : List HoldingRow} {a : Nat} {t' : String} {r : HoldingRow}
    (hne : r.ticker ≠ t') : posFind (l ++ [r]) a t' = posFind l a t' := by
  induction l with
  | nil =>
    rw [List.nil_append, posFind_cons]
    simp [posFind, tickFind, hne]
  | cons x rest ih =>
    rw [List.cons_append, posFind_cons, posFind_cons]
    split
    · split
      · rfl
      · exact ih
    · exact ih

theorem posFind_hDelete_ne {l : List HoldingRow} {a : Nat} {T K : String} (hne : T ≠ K) :
    posFind (hDelete l a K) a T = posFind l a T := by
  induction l with
  | nil => simp [hDelete]
  | cons x rest ih =>
    by_cases hx : x.account_id = a ∧ x.ticker = K
    · simp only [hDelete, if_pos hx]
      rw [posFind_cons]
      by_cases h1 : x.account_id = a ∧ 0 < x.shares
      · rw [if_pos h1, if_neg (by rw [hx.2]; exact Ne.symm hne)]
        exact ih
      · rw [if_neg h1]
        exact ih
    · simp only [hDelete, if_neg hx]
      rw [posFind_cons, posFind_cons]
      split
      · split
        · rfl
        · exact ih
      · exact ih

theorem mem_syncRemoveStep {bt : List String} {a : Nat} {acc : List HoldingRow × Nat}
    {x r : HoldingRow} (hr : r ∈ (syncRemoveStep bt a acc x).1) : r ∈ acc.1 := by
  unfold syncRemoveStep at hr
  split at hr
  · exact hr
  · exact (mem_hDelete hr).1

theorem mem_syncRemoveLoop {bt : List String} {a : Nat} :
    ∀ (ex : List HoldingRow) (acc : List HoldingRow × Nat) (r : HoldingRow),
      r ∈ (ex.foldl (syncRemoveStep bt a) acc).1 → r ∈ acc.1
  | [], _, _, hr => hr
  | x :: rest, acc, r, hr => by
      simp only [List.foldl_cons] at hr
      exact mem_syncRemoveStep (mem_syncRemoveLoop rest _ r hr)

theorem syncRemoveLoop_not_mem {bt : List String} {a : Nat} {K : String} :
    ∀ (ex : List HoldingRow) (acc : List HoldingRow × Nat),
      (∀ r ∈ acc.1, ¬(r.account_id = a ∧ r.ticker = K)) →
      ∀ r ∈ (ex.foldl (syncRemoveStep bt a) acc).1, ¬(r.account_id = a ∧ r.ticker = K)
  | [], _, h => h
  | x :: rest, acc, h => by
      simp only [List.foldl_cons]
      refine syncRemoveLoop_not_mem rest _ ?_
      intro r hr
      exact h r (mem_syncRemoveStep hr)

theorem syncRemoveLoop_kills {bt : List String} {a : Nat} :
    ∀ (ex : List HoldingRow) (acc : List HoldingRow × Nat) (h0 : HoldingRow),
      h0 ∈ ex → h0.ticker ∉ bt → upperStr h0.ticker = h0.ticker →
      ∀ r ∈ (ex.foldl (syncRemoveStep bt a) acc).1, ¬(r.account_id = a ∧ r.ticker = h0.ticker)
  | [], _, _, hmem, _, _ => by simp at hmem
  | x :: rest, acc, h0, hmem, hnb, hnorm => by
      simp only [List.foldl_cons]
      rcases List.mem_cons.mp hmem with heq | hmem'
      · subst heq
        refine syncRemoveLoop_not_mem rest _ ?_
        intro r hr
        unfold syncRemoveStep at hr
        rw [if_neg hnb, hnorm] at hr
        exact (mem_hDelete hr).2
      · exact syncRemoveLoop_kills rest _ h0 hmem' hnb hnorm

theorem syncRemoveLoop_posFind {bt : List String} {a : Nat} {T : String} (hT : T ∈ bt) :
    ∀ (ex : List HoldingRow) (acc : List HoldingRow × Nat),
      (∀ h ∈ ex, upperStr h.ticker = h.ticker) →
      posFind (ex.foldl (syncRemoveStep bt a) acc).1 a T = posFind acc.1 a T
  | [], _, _ => rfl
  | x :: rest, acc, hnorm => by
      simp only [List.foldl_cons]
      rw [syncRemoveLoop_posFind hT rest _ (fun h hh => hnorm h (List.mem_cons_of_mem _ hh))]
      unfold syncRemoveStep
      by_cases hx : x.ticker ∈ bt
      · rw [if_pos hx]
      · rw [if_neg hx]
        have hkey := hnorm x (List.mem_cons_self _ _)
        simp only [hkey]
        exact posFind_hDelete_ne (fun h => hx (h ▸ hT))

theorem syncRemoveLoop_noop {bt : List String} {a : Nat} :
    ∀ (ex : List HoldingRow) (hs : List HoldingRow) (n : Nat),
      (∀ h ∈ ex, h.ticker ∈ bt) →
      ex.foldl (syncRemoveStep bt a) (hs, n) = (hs, n)
  | [], _, _, _ => rfl
  | x :: rest, hs, n, h => by
      simp only [List.foldl_cons]
      have hstep : syncRemoveStep bt a (hs, n) x = (hs, n) := by
        simp [syncRemoveStep, h x (by simp)]
      rw [hstep]
      exact syncRemoveLoop_noop rest hs n (fun y hy => h y (by simp [hy]))

theorem syncLoop_noop {existing1 : List HoldingRow} {a : Nat} :
    ∀ (items : List SyncItem) (hs : List HoldingRow) (n1 n2 : Nat),
      (∀ i ∈ items, 0 < i.shares →
        ∃ r, tickFind existing1 (upperStr i.ticker) = some r ∧ r.shares = i.shares ∧
          ¬(1 / 100 < |r.avg_cost - i.avg_cost|)) →
      items.foldl (syncStep existing1 a) (hs, n1, n2) = (hs, n1, n2)
  | [], _, _, _, _ => rfl
  | i :: rest, hs, n1, n2, hm => by
      simp only [List.foldl_cons]
      have hstep : syncStep existing1 a (hs, n1, n2) i = (hs, n1, n2) := by
        by_cases hskip : i.shares ≤ 0
        · simp [syncStep, hskip]
        · obtain ⟨r, hr, hsh, htol⟩ := hm i (by simp) (lt_of_not_le hskip)
          have hcond : ¬(r.shares ≠ i.shares ∨ 1 / 100 < |r.avg_cost - i.avg_cost|) :=
            not_or.mpr ⟨not_not_intro hsh, htol⟩
          simp only [syncStep, if_neg hskip, hr, if_neg hcond]
      rw [hstep]
      exact syncLoop_noop rest hs n1 n2 (fun j hj hp => hm j (by simp [hj]) hp)

/-- Invariants carried through the snapshot loop of `sync_broker_holdings`:
account-`a` rows stay positive; every account-`a` row's ticker is either an
(uppercased) snapshot ticker or an unchanged, normalised pre-existing ticker;
and after processing an item with positive shares, the account's visible row
for its ticker matches the item (same share count, cost within the 0.01
tolerance). -/
theorem syncLoop_main (existing : List HoldingRow) (a : Nat) (bt : List String) :
    ∀ (pending ps : List SyncItem) (hs : List HoldingRow) (n1 n2 : Nat),
      ((ps ++ pending).map (fun j => upperStr j.ticker)).Nodup →
      (∀ i ∈ pending, upperStr i.ticker ∈ bt) →
      (∀ r ∈ hs, r.account_id = a → 0 < r.shares) →
      (∀ r ∈ hs, r.account_id = a → r.ticker ∈ bt ∨
        (upperStr r.ticker = r.ticker ∧ r.ticker ∈ existing.map (fun h => h.ticker))) →
      (∀ i ∈ ps, 0 < i.shares → ∃ r, posFind hs a (upperStr i.ticker) = some r ∧
        r.shares = i.shares ∧ ¬(1 / 100 < |r.avg_cost - i.avg_cost|)) →
      (∀ T, T ∉ ps.map (fun j => upperStr j.ticker) →
        posFind hs a T = tickFind existing T) →
      (∀ r ∈ (pending.foldl (syncStep existing a) (hs, n1, n2)).1, r.account_id = a →
        0 < r.shares) ∧
      (∀ r ∈ (pending.foldl (syncStep existing a) (hs, n1, n2)).1, r.account_id = a →
        r.ticker ∈ bt ∨
        (upperStr r.ticker = r.ticker ∧ r.ticker ∈ existing.map (fun h => h.ticker))) ∧
      (∀ i ∈ ps ++ pending, 0 < i.shares →
        ∃ r, posFind (pending.foldl (syncStep existing a) (hs, n1, n2)).1 a
            (upperStr i.ticker) = some r ∧
          r.shares = i.shares ∧ ¬(1 / 100 < |r.avg_cost - i.avg_cost|))
  | [], ps, hs, n1, n2, _, _, hA, hB, hC, _ => by
      refine ⟨hA, hB, ?_⟩
      simpa using hC
  | i :: rest, ps, hs, n1, n2, hnd, hbt, hA, hB, hC, hD => by
      have hnd' : (((ps ++ [i]) ++ rest).map (fun j => upperStr j.ticker)).Nodup := by
        rw [← List.append_cons]
        exact hnd
      have hsplit : ((ps ++ i :: rest).map (fun j => upperStr j.ticker)) =
          ps.map (fun j => upperStr j.ticker) ++
            (upperStr i.ticker :: rest.map (fun j => upperStr j.ticker)) := by
        simp
      have hdisj := (List.nodup_append.mp (by rw [← hsplit]; exact hnd)).2.2
      have hTps : upperStr i.ticker ∉ ps.map (fun j => upperStr j.ticker) := by
        intro hmem
        exact hdisj hmem (by simp)
      have hpsne : ∀ j ∈ ps, upperStr j.ticker ≠ upperStr i.ticker := by
        intro j hj heq
        have hm : upperStr i.ticker ∈ ps.map (fun j => upperStr j.ticker) := by
          rw [← heq]
          exact List.mem_map_of_mem _ hj
        exact hdisj hm (by simp)
      have hbt' : ∀ j ∈ rest, upperStr j.ticker ∈ bt := fun j hj => hbt j (by simp [hj])
      have hTbt : upperStr i.ticker ∈ bt := hbt i (by simp)
      have happcons : ps ++ i :: rest = (ps ++ [i]) ++ rest := by
        rw [← List.append_cons]
      simp only [List.foldl_cons]
      by_cases hskip : i.shares ≤ 0
      · have hstep : syncStep existing a (hs, n1, n2) i = (hs, n1, n2) := by
          simp [syncStep, hskip]
        rw [hstep, happcons]
        refine syncLoop_main existing a bt rest (ps ++ [i]) hs n1 n2 hnd' hbt' hA hB ?_ ?_
        · intro j hj hjs
          rcases List.mem_append.mp hj with hj | hj
          · exact hC j hj hjs
          · simp at hj
            subst hj
            exact absurd hjs (by simpa using hskip)
        · intro T hT
          refine hD T (fun hmem => hT ?_)
          rw [List.map_append]
          exact List.mem_append_left _ hmem
      · have hipos : 0 < i.shares := lt_of_not_le hskip
        cases htf : tickFind existing (upperStr i.ticker) with
        | some old =>
          have hDfind : posFind hs a (upperStr i.ticker) = some old := by
            rw [hD _ hTps, htf]
          by_cases hch : old.shares ≠ i.shares ∨ 1 / 100 < |old.avg_cost - i.avg_cost|
          · have hstep : syncStep existing a (hs, n1, n2) i =
                (hSetBoth hs a (upperStr i.ticker) i.shares i.avg_cost, n1, n2 + 1) := by
              simp only [syncStep, if_neg hskip, htf, if_pos hch]
            rw [hstep, happcons]
            refine syncLoop_main existing a bt rest (ps ++ [i]) _ n1 (n2 + 1) hnd' hbt'
              ?_ ?_ ?_ ?_
            · intro r hr hac
              obtain ⟨y, hy, hry⟩ := mem_hSetBoth hr
              rcases hry with hry | hry
              · rw [hry]
                exact hA y hy (by rw [hry] at hac; exact hac)
              · rw [hry]
                simpa using hipos
            · intro r hr hac
              obtain ⟨y, hy, hry⟩ := mem_hSetBoth hr
              have hky : r.account_id = y.account_id ∧ r.ticker = y.ticker := by
                rcases hry with hry | hry <;> rw [hry] <;> exact ⟨rfl, rfl⟩
              rw [hky.2]
              exact hB y hy (by rw [← hky.1]; exact hac)
            · intro j hj hjs
              rcases List.mem_append.mp hj with hj | hj
              · obtain ⟨r, hrf, hrr⟩ := hC j hj hjs
                exact ⟨r, by rw [posFind_hSetBoth_ne (hpsne j hj) _ _]; exact hrf, hrr⟩
              · simp at hj
                subst hj
                refine ⟨⟨a, upperStr j.ticker, j.shares, j.avg_cost⟩, ?_, rfl, ?_⟩
                · exact posFind_hSetBoth_self hDfind hjs _
                · simp
            · intro T hT
              have hTne : T ≠ upperStr i.ticker := by
                intro h
                refine hT ?_
                rw [List.map_append, h]
                exact List.mem_append_right _ (by simp)
              rw [posFind_hSetBoth_ne hTne _ _]
              refine hD T (fun hmem => hT ?_)
              rw [List.map_append]
              exact List.mem_append_left _ hmem
          · have hstep : syncStep existing a (hs, n1, n2) i = (hs, n1, n2) := by
              simp only [syncStep, if_neg hskip, htf, if_neg hch]
            rw [hstep, happcons]
            refine syncLoop_main existing a bt rest (ps ++ [i]) hs n1 n2 hnd' hbt' hA hB ?_ ?_
            · intro j hj hjs
              rcases List.mem_append.mp hj with hj | hj
              · exact hC j hj hjs
              · simp at hj
                subst hj
                rw [not_or] at hch
                exact ⟨old, hDfind, not_not.mp hch.1, hch.2⟩
            · intro T hT
              refine hD T (fun hmem => hT ?_)
              rw [List.map_append]
              exact List.mem_append_left _ hmem
        | none =>
          have hDfind : posFind hs a (upperStr i.ticker) = none := by
            rw [hD _ hTps, htf]
          have hstep : syncStep existing a (hs, n1, n2) i =
              (hs ++ [⟨a, upperStr i.ticker, i.shares, i.avg_cost⟩], n1 + 1, n2) := by
            simp [syncStep, hskip, htf]
          rw [hstep, happcons]
          refine syncLoop_main existing a bt rest (ps ++ [i]) _ (n1 + 1) n2 hnd' hbt'
            ?_ ?_ ?_ ?_
          · intro r hr hac
            rcases List.mem_append.mp hr with hr | hr
            · exact hA r hr hac
            · simp at hr
              subst hr
              simpa using hipos
          · intro r hr hac
            rcases List.mem_append.mp hr with hr | hr
            · exact hB r hr hac
            · simp at hr
              subst hr
              exact Or.inl (by simpa using hTbt)
          · intro j hj hjs
            rcases List.mem_append.mp hj with hj | hj
            · obtain ⟨r, hrf, hrr⟩ := hC j hj hjs
              refine ⟨r, ?_, hrr⟩
              rw [posFind_append_ne (Ne.symm (hpsne j hj))]
              exact hrf
            · simp at hj
              subst hj
              refine ⟨⟨a, upperStr j.ticker, j.shares, j.avg_cost⟩, ?_, rfl, ?_⟩
              · exact posFind_append_self hDfind ⟨rfl, by simpa using hjs, rfl⟩
              · simp
          · intro T hT
            have hTne : T ≠ upperStr i.ticker := by
              intro h
              refine hT ?_
              rw [List.map_append, h]
              exact List.mem_append_right _ (by simp)
            rw [posFind_append_ne (by simpa using Ne.symm hTne)]
            refine hD T (fun hmem => hT ?_)
            rw [List.map_append]
            exact List.mem_append_left _ hmem

/-- C9: holdings reconciliation is idempotent — whenever a sync commits
against a store whose rows for the account are positive and
uppercase-normalised (as every service write path leaves them) and the
snapshot mentions each ticker once, re-running the same snapshot reports
`{added: 0, updated: 0, removed: 0}` and leaves the store exactly as the first
run left it; in particular syncing `[{AAPL, 10, 178.5}]` into empty holdings
returns `{added: 1, updated: 0, removed: 0}` and re-running it returns
`{added: 0, updated: 0, removed: 0}`. -/
theorem claim_C9 :
    (∀ (db db1 : DB) (a : Nat) (items : List SyncItem) (cnt : Nat × Nat × Nat),
        (∀ r ∈ db.holdings, r.account_id = a → 0 < r.shares) →
        (∀ r ∈ db.holdings, r.account_id = a → upperStr r.ticker = r.ticker) →
        (items.map (fun i => upperStr i.ticker)).Nodup →
        sync_broker_holdings db a items = .ok (db1, cnt) →
        sync_broker_holdings db1 a items = .ok (db1, (0, 0, 0))) ∧
    (sync_broker_holdings ⟨[(1, "USD")], [], [], [], []⟩ 1 [⟨"AAPL", 10, 357 / 2⟩] =
        .ok (⟨[(1, "USD")], [⟨1, "AAPL", 10, 357 / 2⟩], [], [], []⟩, 1, 0, 0) ∧
      sync_broker_holdings ⟨[(1, "USD")], [⟨1, "AAPL", 10, 357 / 2⟩], [], [], []⟩ 1
          [⟨"AAPL", 10, 357 / 2⟩] =
        .ok (⟨[(1, "USD")], [⟨1, "AAPL", 10, 357 / 2⟩], [], [], []⟩, 0, 0, 0)) := by
  constructor
  · intro db db1 a items cnt hpos hnorm hnd hsync
    cases hacc : aFind db.accounts a with
    | none => simp [sync_broker_holdings, hacc] at hsync
    | some cur =>
      simp only [sync_broker_holdings, hacc, Except.ok.injEq, Prod.mk.injEq] at hsync
      obtain ⟨hdb, -⟩ := hsync
      subst hdb
      have hEnorm : ∀ h ∈ list_holdings db a, upperStr h.ticker = h.ticker := by
        intro h hh
        have hm := List.mem_filter.mp hh
        exact hnorm h hm.1 (of_decide_eq_true hm.2).1
      have hB0 : ∀ r ∈ db.holdings, r.account_id = a →
          r.ticker ∈ items.map (fun i => upperStr i.ticker) ∨
          (upperStr r.ticker = r.ticker ∧
            r.ticker ∈ (list_holdings db a).map (fun h => h.ticker)) := by
        intro r hr hac
        right
        refine ⟨hnorm r hr hac, List.mem_map_of_mem _ ?_⟩
        exact List.mem_filter.mpr ⟨hr, by simp [hac, hpos r hr hac]⟩
      obtain ⟨hA1, hB1, hC1⟩ := syncLoop_main (list_holdings db a) a
        (items.map (fun i => upperStr i.ticker)) items [] db.holdings 0 0
        (by simpa using hnd) (fun i hi => List.mem_map_of_mem _ hi) hpos hB0
        (by simp) (fun T _ => rfl)
      set bt := items.map (fun i => upperStr i.ticker) with hbtdef
      set ex0 := list_holdings db a with hex0def
      set hs1 := (items.foldl (syncStep ex0 a) (db.holdings, 0, 0)).1 with hhs1def
      set hs2 := (ex0.foldl (syncRemoveStep bt a) (hs1, 0)).1 with hhs2def
      have hC2 : ∀ i ∈ items, 0 < i.shares →
          ∃ r, posFind hs2 a (upperStr i.ticker) = some r ∧ r.shares = i.shares ∧
            ¬(1 / 100 < |r.avg_cost - i.avg_cost|) := by
        intro i hi hip
        obtain ⟨r, hrf, hrr⟩ := hC1 i (by simpa using hi) hip
        refine ⟨r, ?_, hrr⟩
        rw [hhs2def]
        rw [syncRemoveLoop_posFind (List.mem_map_of_mem _ hi) ex0 (hs1, 0) hEnorm]
        exact hrf
      have hBT2 : ∀ h ∈ list_holdings ({ db with holdings := hs2 }) a, h.ticker ∈ bt := by
        intro h hh
        have hm := List.mem_filter.mp hh
        have hmem2 : h ∈ hs2 := hm.1
        have hprops := of_decide_eq_true hm.2
        have hmem1 : h ∈ hs1 := by
          have := mem_syncRemoveLoop ex0 (hs1, 0) h (by rw [← hhs2def]; exact hmem2)
          exact this
        rcases hB1 h hmem1 hprops.1 with hbt | ⟨hn, hex⟩
        · exact hbt
        · by_contra hnb
          obtain ⟨h0, hh0, hh0t⟩ := List.mem_map.mp hex
          have hh0nb : h0.ticker ∉ bt := by
            rw [hh0t]
            exact hnb
          have hkill := syncRemoveLoop_kills ex0 (hs1, 0) h0 hh0 hh0nb (hEnorm h0 hh0) h
            (by rw [← hhs2def]; exact hmem2)
          exact hkill ⟨hprops.1, hh0t.symm⟩
      have hnoop1 : items.foldl (syncStep (list_holdings ({ db with holdings := hs2 }) a) a)
          (hs2, 0, 0) = (hs2, 0, 0) := by
        apply syncLoop_noop
        intro i hi hip
        exact hC2 i hi hip
      have hnoop2 : (list_holdings ({ db with holdings := hs2 }) a).foldl
          (syncRemoveStep bt a) (hs2, 0) = (hs2, 0) :=
        syncRemoveLoop_noop _ hs2 0 hBT2
      have hacc2 : aFind ({ db with holdings := hs2 } : DB).accounts a = some cur := hacc
      simp only [sync_broker_holdings, hacc2]
      rw [← hbtdef]
      simp only [hnoop1]
      simp only [hnoop2]
  · constructor <;>
      norm_num [sync_broker_holdings, aFind, list_holdings, syncStep, tickFind, syncRemoveStep,
        hSetBoth, hDelete, List.filter,
        show upperStr "AAPL" = "AAPL" from by decide]

/-- Witness for C9: re-running the AAPL snapshot against the store the first
run produced reports `{added: 0, updated: 0, removed: 0}` and leaves it
unchanged. -/
theorem claim_C9_witness :
    sync_broker_holdings ⟨[(1, "USD")], [⟨1, "AAPL", 10, 357 / 2⟩], [], [], []⟩ 1
        [⟨"AAPL", 10, 357 / 2⟩] =
      .ok (⟨[(1, "USD")], [⟨1, "AAPL", 10, 357 / 2⟩], [], [], []⟩, 0, 0, 0) :=
  claim_C9.1 ⟨[(1, "USD")], [], [], [], []⟩
    ⟨[(1, "USD")], [⟨1, "AAPL", 10, 357 / 2⟩], [], [], []⟩ 1 [⟨"AAPL", 10, 357 / 2⟩] (1, 0, 0)
    (by simp) (by simp) (by decide) claim_C9.2.1

end PortfolioDB
